import Mathlib

/-!
# Verification of the payment engine (`src/lib.rs`)

A shallow embedding of the payment engine. `rust_decimal::Decimal` is
modelled as an exact mantissa/scale pair (`Decimal` below): addition,
subtraction and comparison align the scales exactly as the Rust library
does (the 96-bit mantissa overflow, which panics in Rust, is out of scope:
mantissas here are unbounded). `HashMap` and `HashSet` are modelled as
association lists / lists with the operations the source uses (`entry().
or_default()`, `get`, `get_mut`, `insert`, `contains`, iteration).
Each `&mut self` method of `Engine` becomes a state-passing function.
-/

/-- Model of `rust_decimal::Decimal`: value = `mantissa / 10 ^ scale`. -/
structure Decimal where
  mantissa : Int
  scale : Nat
deriving DecidableEq

/-- The rational value a `Decimal` denotes. -/
def Decimal.val (d : Decimal) : ℚ := (d.mantissa : ℚ) / 10 ^ d.scale

/-- `Decimal::ZERO` (also `Decimal::default()`): mantissa 0, scale 0. -/
def Decimal.zero : Decimal := ⟨0, 0⟩

/-- Decimal addition: align to the larger scale, add mantissas
(`impl Add for Decimal`, exact since overflow is out of scope). -/
def Decimal.add (a b : Decimal) : Decimal :=
  ⟨a.mantissa * 10 ^ (max a.scale b.scale - a.scale) +
     b.mantissa * 10 ^ (max a.scale b.scale - b.scale),
   max a.scale b.scale⟩

/-- Decimal subtraction: align to the larger scale, subtract mantissas. -/
def Decimal.sub (a b : Decimal) : Decimal :=
  ⟨a.mantissa * 10 ^ (max a.scale b.scale - a.scale) -
     b.mantissa * 10 ^ (max a.scale b.scale - b.scale),
   max a.scale b.scale⟩

/-- Decimal comparison (`impl PartialOrd for Decimal` compares values):
align the scales and compare mantissas. -/
def Decimal.lt (a b : Decimal) : Prop :=
  a.mantissa * 10 ^ (max a.scale b.scale - a.scale) <
    b.mantissa * 10 ^ (max a.scale b.scale - b.scale)

instance (a b : Decimal) : Decidable (Decimal.lt a b) := by
  unfold Decimal.lt; infer_instance

/-- Round `m / p` to the nearest integer with ties to even
(the `MidpointNearestEven` a.k.a. bankers rounding used by `round_dp`);
`p` is a positive power of ten. -/
def roundHalfEvenInt (m : Int) (p : Nat) : Int :=
  let q := Int.ediv m p
  let r := Int.emod m p
  if 2 * r < (p : Int) then q
  else if (p : Int) < 2 * r then q + 1
  else if Int.emod q 2 = 0 then q else q + 1

/-- `Decimal::round_dp(dp)`: identity when the scale is at most `dp`,
otherwise bankers-round the mantissa down to scale `dp`. -/
def Decimal.round_dp (d : Decimal) (dp : Nat) : Decimal :=
  if d.scale ≤ dp then d
  else ⟨roundHalfEvenInt d.mantissa (10 ^ (d.scale - dp)), dp⟩

/-- Strip trailing zero digits from a magnitude while the scale is
positive (the loop inside `Decimal::normalize`). -/
def stripZeros : Nat → Nat → Nat × Nat
  | n, 0 => (n, 0)
  | n, s + 1 => if n % 10 = 0 then stripZeros (n / 10) s else (n, s + 1)

/-- `Decimal::normalize()`: remove trailing zeros from the fractional part. -/
def Decimal.normalize (d : Decimal) : Decimal :=
  let p := stripZeros d.mantissa.natAbs d.scale
  ⟨if d.mantissa < 0 then -(p.1 : Int) else (p.1 : Int), p.2⟩

/-- The character for a decimal digit. -/
def digitChar (d : Nat) : Char := Char.ofNat (48 + d % 10)

/-- Little-endian decimal digits of `n`, with explicit fuel
(structural recursion so that the kernel can evaluate it). -/
def natDigitsCore : Nat → Nat → List Char
  | _, 0 => []
  | 0, _ + 1 => []
  | fuel + 1, n + 1 => digitChar ((n + 1) % 10) :: natDigitsCore fuel ((n + 1) / 10)

/-- Big-endian decimal digit characters of `n` (`"0"` for zero). -/
def natDigits (n : Nat) : List Char :=
  if n = 0 then ['0'] else (natDigitsCore n n).reverse

/-- `Decimal` rendering as in `impl Display for Decimal`: the mantissa
digits with a decimal point inserted `scale` digits from the right,
zero-padded so the integer part has at least one digit. -/
def Decimal.toString (d : Decimal) : String :=
  let sign : List Char := if d.mantissa < 0 then ['-'] else []
  let digits : List Char := natDigits d.mantissa.natAbs
  if d.scale = 0 then String.mk (sign ++ digits)
  else
    let padded := List.replicate (d.scale + 1 - digits.length) '0' ++ digits
    String.mk (sign ++ padded.take (padded.length - d.scale) ++
      ('.' :: padded.drop (padded.length - d.scale)))

/-- `format_decimal`: `value.round_dp(4).normalize().to_string()`. -/
def format_decimal (value : Decimal) : String :=
  ((value.round_dp 4).normalize).toString

/-- Number of fractional digits a rendered decimal string shows:
the length of the segment after the decimal point (0 when there is none). -/
def fracDigits (s : String) : Nat :=
  if '.' ∈ s.toList then (s.toList.reverse.takeWhile (fun c => c ≠ '.')).length
  else 0

/-- `enum TransactionState`. -/
inductive TransactionState
  | Normal
  | Disputed
  | Resolved
  | ChargedBack
deriving DecidableEq

/-- `enum Transaction`: a stored record, a deposit with a dispute state
or a withdrawal (withdrawals carry no dispute state). -/
inductive Transaction
  | Deposit (amount : Decimal) (state : TransactionState)
  | Withdrawal (amount : Decimal)
deriving DecidableEq

/-- `struct Account`; `transactions` models the per-account
`HashMap<TransactionId, Transaction>` as an association list. -/
structure Account where
  available : Decimal := Decimal.zero
  held : Decimal := Decimal.zero
  locked : Bool := false
  transactions : List (Nat × Transaction) := []
deriving DecidableEq

/-- `Account::total`: `available + held`. -/
def Account.total (a : Account) : Decimal := a.available.add a.held

/-- `struct Engine`; `accounts` models `HashMap<ClientId, Account>`,
`transaction_ids_processed` models `HashSet<TransactionId>`. -/
structure Engine where
  accounts : List (Nat × Account) := []
  transaction_ids_processed : List Nat := []
deriving DecidableEq

/-- `Engine::new()` / `Engine::default()`. -/
def Engine.new : Engine := ⟨[], []⟩

/-- `HashMap::get`: first entry with the given key. -/
def alGet {α : Type} : List (Nat × α) → Nat → Option α
  | [], _ => none
  | (k, v) :: rest, key => if k = key then some v else alGet rest key

/-- `HashMap::insert`: replace the entry if the key is present,
otherwise append a new entry. -/
def alInsert {α : Type} : List (Nat × α) → Nat → α → List (Nat × α)
  | [], key, v => [(key, v)]
  | (k, w) :: rest, key, v =>
      if k = key then (key, v) :: rest else (k, w) :: alInsert rest key v

/-- `HashMap::entry(key).or_default()` on the accounts map: insert a
default account when the key is absent. -/
def alEnsure (l : List (Nat × Account)) (key : Nat) : List (Nat × Account) :=
  match alGet l key with
  | some _ => l
  | none => l ++ [(key, {})]

/-- `Engine::get_unlocked_account_or_default`: materialize the entry
(`entry().or_default()`), then refuse it when the account is locked or
the transaction id was already processed. Returns the engine with the
(possibly created) entry together with the account to operate on. -/
def Engine.get_unlocked_account_or_default (e : Engine) (client_id tx_id : Nat) :
    Engine × Option Account :=
  let e' : Engine := { e with accounts := alEnsure e.accounts client_id }
  match alGet e'.accounts client_id with
  | none => (e', none)
  | some account =>
    if account.locked then (e', none)
    else if tx_id ∈ e'.transaction_ids_processed then (e', none)
    else (e', some account)

/-- `Engine::get_unlocked_account`: look the account up without creating
it; refuse it when locked. -/
def Engine.get_unlocked_account (e : Engine) (client_id : Nat) : Option Account :=
  match alGet e.accounts client_id with
  | none => none
  | some account => if account.locked then none else some account

/-- `Engine::deposit`. -/
def Engine.deposit (e : Engine) (client_id tx_id : Nat) (amount : Decimal) : Engine :=
  match e.get_unlocked_account_or_default client_id tx_id with
  | (e', none) => e'
  | (e', some account) =>
    let account := { account with
      available := account.available.add amount,
      transactions := alInsert account.transactions tx_id (.Deposit amount .Normal) }
    { accounts := alInsert e'.accounts client_id account,
      transaction_ids_processed := tx_id :: e'.transaction_ids_processed }

/-- `Engine::withdraw`. -/
def Engine.withdraw (e : Engine) (client_id tx_id : Nat) (amount : Decimal) : Engine :=
  match e.get_unlocked_account_or_default client_id tx_id with
  | (e', none) => e'
  | (e', some account) =>
    if Decimal.lt account.available amount then e'
    else
      let account := { account with
        available := account.available.sub amount,
        transactions := alInsert account.transactions tx_id (.Withdrawal amount) }
      { accounts := alInsert e'.accounts client_id account,
        transaction_ids_processed := tx_id :: e'.transaction_ids_processed }

/-- `Engine::dispute`. -/
def Engine.dispute (e : Engine) (client_id tx_id : Nat) : Engine :=
  match e.get_unlocked_account client_id with
  | none => e
  | some account =>
    match alGet account.transactions tx_id with
    | some (.Deposit amount st) =>
      match st with
      | .Normal =>
        let account := { account with
          available := account.available.sub amount,
          held := account.held.add amount,
          transactions := alInsert account.transactions tx_id (.Deposit amount .Disputed) }
        { e with accounts := alInsert e.accounts client_id account }
      | _ => e
    | _ => e

/-- `Engine::resolve`. -/
def Engine.resolve (e : Engine) (client_id tx_id : Nat) : Engine :=
  match e.get_unlocked_account client_id with
  | none => e
  | some account =>
    match alGet account.transactions tx_id with
    | some (.Deposit amount st) =>
      match st with
      | .Disputed =>
        let account := { account with
          held := account.held.sub amount,
          available := account.available.add amount,
          transactions := alInsert account.transactions tx_id (.Deposit amount .Resolved) }
        { e with accounts := alInsert e.accounts client_id account }
      | _ => e
    | _ => e

/-- `Engine::chargeback`. -/
def Engine.chargeback (e : Engine) (client_id tx_id : Nat) : Engine :=
  match e.get_unlocked_account client_id with
  | none => e
  | some account =>
    match alGet account.transactions tx_id with
    | some (.Deposit amount st) =>
      match st with
      | .Disputed =>
        let account := { account with
          held := account.held.sub amount,
          locked := true,
          transactions := alInsert account.transactions tx_id (.Deposit amount .ChargedBack) }
        { e with accounts := alInsert e.accounts client_id account }
      | _ => e
    | _ => e

/-- `enum InputTransaction` (the `TransactionIds` pair is inlined). -/
inductive InputTransaction
  | Deposit (client tx : Nat) (amount : Decimal)
  | Withdrawal (client tx : Nat) (amount : Decimal)
  | Dispute (client tx : Nat)
  | Resolve (client tx : Nat)
  | Chargeback (client tx : Nat)
deriving DecidableEq

/-- The client a command names. -/
def InputTransaction.client_of : InputTransaction → Nat
  | .Deposit client _ _ => client
  | .Withdrawal client _ _ => client
  | .Dispute client _ => client
  | .Resolve client _ => client
  | .Chargeback client _ => client

/-- `Engine::process_record`. -/
def Engine.process_record (e : Engine) : InputTransaction → Engine
  | .Deposit client tx amount => e.deposit client tx amount
  | .Withdrawal client tx amount => e.withdraw client tx amount
  | .Dispute client tx => e.dispute client tx
  | .Resolve client tx => e.resolve client tx
  | .Chargeback client tx => e.chargeback client tx

/-- Process a list of commands in order (the loop of `apply_transactions`,
after normalization). -/
def Engine.runFrom (e : Engine) (cs : List InputTransaction) : Engine :=
  cs.foldl Engine.process_record e

/-- States reachable from the empty engine. -/
def runCmds (cs : List InputTransaction) : Engine :=
  Engine.new.runFrom cs

instance {ε α : Type} [DecidableEq ε] [DecidableEq α] : DecidableEq (Except ε α) := fun x y =>
  match x, y with
  | .error e, .error f =>
    if h : e = f then .isTrue (by subst h; rfl) else .isFalse (by simp [h])
  | .ok a, .ok b =>
    if h : a = b then .isTrue (by subst h; rfl) else .isFalse (by simp [h])
  | .error _, .ok _ => .isFalse (by simp)
  | .ok _, .error _ => .isFalse (by simp)

/-- `struct RawInputTransaction` (after csv deserialization). -/
structure RawInputTransaction where
  tx_type : String
  client : Nat
  tx : Nat
  amount : Option Decimal
deriving DecidableEq

/-- `impl TryFrom<RawInputTransaction> for InputTransaction`. The Rust
error messages interpolate the transaction id / type; the embedding keeps
constant message texts, which the claims never inspect. -/
def InputTransaction.try_from (raw : RawInputTransaction) :
    Except String InputTransaction :=
  let get_amount : Except String Decimal :=
    match raw.amount with
    | some a => Except.ok a
    | none => Except.error "Deposit/Withdrawal missing amount"
  if raw.tx_type = "deposit" then get_amount.map (fun a => .Deposit raw.client raw.tx a)
  else if raw.tx_type = "withdrawal" then
    get_amount.map (fun a => .Withdrawal raw.client raw.tx a)
  else if raw.tx_type = "dispute" then Except.ok (.Dispute raw.client raw.tx)
  else if raw.tx_type = "resolve" then Except.ok (.Resolve raw.client raw.tx)
  else if raw.tx_type = "chargeback" then Except.ok (.Chargeback raw.client raw.tx)
  else Except.error "Unknown transaction type"

/-- The `AccountRow` emitted by `write_accounts`. -/
structure AccountRow where
  client : Nat
  available : String
  held : String
  total : String
  locked : Bool
deriving DecidableEq

/-- `Engine::write_accounts`: one row per account in the map, decimals
rendered through `format_decimal`. (Csv framing is the sink adapter and
is abstracted as the list of rows.) -/
def Engine.write_accounts (e : Engine) : List AccountRow :=
  e.accounts.map (fun p =>
    { client := p.1,
      available := format_decimal p.2.available,
      held := format_decimal p.2.held,
      total := format_decimal p.2.total,
      locked := p.2.locked })

/-- The stored record of client `c` under transaction id `t`. -/
def Engine.getRecord (e : Engine) (c t : Nat) : Option Transaction :=
  (alGet e.accounts c).bind (fun a => alGet a.transactions t)

/-- The dispute-state transitions the state machine allows in one step:
stay put, `Normal → Disputed`, or `Disputed → Resolved / ChargedBack`. -/
def TransactionState.stepOK (st st' : TransactionState) : Prop :=
  st' = st ∨ (st = .Normal ∧ st' = .Disputed) ∨
    (st = .Disputed ∧ (st' = .Resolved ∨ st' = .ChargedBack))

/-! ## Association-list lemmas -/

theorem alGet_alInsert_self {α : Type} (l : List (Nat × α)) (k : Nat) (v : α) :
    alGet (alInsert l k v) k = some v := by
  induction l with
  | nil => simp [alInsert, alGet]
  | cons p rest ih =>
    obtain ⟨k', w⟩ := p
    by_cases h : k' = k <;> simp [alInsert, alGet, h, ih]

theorem alGet_alInsert_ne {α : Type} (l : List (Nat × α)) {k k' : Nat} (v : α)
    (h : k ≠ k') : alGet (alInsert l k v) k' = alGet l k' := by
  induction l with
  | nil => simp [alInsert, alGet, h]
  | cons p rest ih =>
    obtain ⟨k'', w⟩ := p
    by_cases h2 : k'' = k
    · subst h2; simp [alInsert, alGet, h]
    · simp [alInsert, alGet, h2, ih]

theorem alGet_append_left {α : Type} {l : List (Nat × α)} (m : List (Nat × α))
    {k : Nat} {v : α} (h : alGet l k = some v) : alGet (l ++ m) k = some v := by
  induction l with
  | nil => simp [alGet] at h
  | cons p rest ih =>
    obtain ⟨k', w⟩ := p
    by_cases h2 : k' = k
    · simp_all [alGet]
    · simp [alGet, h2] at h ⊢; exact ih h

theorem alGet_append_right {α : Type} {l : List (Nat × α)} (m : List (Nat × α))
    {k : Nat} (h : alGet l k = none) : alGet (l ++ m) k = alGet m k := by
  induction l with
  | nil => simp
  | cons p rest ih =>
    obtain ⟨k', w⟩ := p
    by_cases h2 : k' = k
    · simp [alGet, h2] at h
    · simp [alGet, h2] at h ⊢; exact ih h

theorem alInsert_of_none {α : Type} {l : List (Nat × α)} {k : Nat} (v : α)
    (h : alGet l k = none) : alInsert l k v = l ++ [(k, v)] := by
  induction l with
  | nil => simp [alInsert]
  | cons p rest ih =>
    obtain ⟨k', w⟩ := p
    by_cases h2 : k' = k
    · simp [alGet, h2] at h
    · simp [alGet, h2] at h
      simp [alInsert, h2, ih h]

theorem alEnsure_of_some {l : List (Nat × Account)} {k : Nat} {v : Account}
    (h : alGet l k = some v) : alEnsure l k = l := by
  simp [alEnsure, h]

theorem alEnsure_of_none {l : List (Nat × Account)} {k : Nat}
    (h : alGet l k = none) : alEnsure l k = l ++ [(k, ({} : Account))] := by
  simp [alEnsure, h]

theorem alGet_alEnsure_self (l : List (Nat × Account)) (k : Nat) :
    alGet (alEnsure l k) k = some ((alGet l k).getD ({} : Account)) := by
  cases h : alGet l k with
  | some v => simp [alEnsure_of_some h, h]
  | none => simp [alEnsure_of_none h, alGet_append_right _ h, alGet]

theorem alGet_alEnsure_ne (l : List (Nat × Account)) {k k' : Nat} (h : k ≠ k') :
    alGet (alEnsure l k) k' = alGet l k' := by
  cases h2 : alGet l k with
  | some v => simp [alEnsure_of_some h2]
  | none =>
    rw [alEnsure_of_none h2]
    cases h3 : alGet l k' with
    | some w => exact alGet_append_left _ h3
    | none => rw [alGet_append_right _ h3]; simp [alGet, h]

theorem alGet_alEnsure_isSome {l : List (Nat × Account)} (k : Nat) {k' : Nat}
    (h : (alGet l k').isSome) : (alGet (alEnsure l k) k').isSome := by
  by_cases h2 : k = k'
  · subst h2; simp [alGet_alEnsure_self]
  · rwa [alGet_alEnsure_ne l h2]

theorem alGet_alInsert_isSome {α : Type} {l : List (Nat × α)} (k : Nat) (v : α)
    {k' : Nat} (h : (alGet l k').isSome) : (alGet (alInsert l k v) k').isSome := by
  by_cases h2 : k = k'
  · subst h2; simp [alGet_alInsert_self]
  · rwa [alGet_alInsert_ne l v h2]

/-! ## Decimal value lemmas -/

theorem val_align (m : Int) {s1 s : Nat} (h : s1 ≤ s) :
    ((m : ℚ) * 10 ^ (s - s1)) / 10 ^ s = (m : ℚ) / 10 ^ s1 := by
  have hs : (10 : ℚ) ^ s = 10 ^ (s - s1) * 10 ^ s1 := by
    rw [← pow_add, Nat.sub_add_cancel h]
  rw [hs, mul_comm ((m : ℚ)) _, mul_div_mul_left _ _ (by positivity)]

theorem Decimal.val_zero : Decimal.zero.val = 0 := by
  simp [Decimal.zero, Decimal.val]

theorem Decimal.val_add (a b : Decimal) : (a.add b).val = a.val + b.val := by
  unfold Decimal.add Decimal.val
  push_cast
  rw [add_div, val_align a.mantissa (le_max_left _ _),
    val_align b.mantissa (le_max_right _ _)]

theorem Decimal.val_sub (a b : Decimal) : (a.sub b).val = a.val - b.val := by
  unfold Decimal.sub Decimal.val
  push_cast
  rw [sub_div, val_align a.mantissa (le_max_left _ _),
    val_align b.mantissa (le_max_right _ _)]

theorem Decimal.lt_iff (a b : Decimal) : a.lt b ↔ a.val < b.val := by
  rw [Decimal.lt, Decimal.val, Decimal.val,
    ← val_align a.mantissa (le_max_left a.scale b.scale),
    ← val_align b.mantissa (le_max_right a.scale b.scale),
    div_lt_div_iff_of_pos_right (by positivity)]
  exact_mod_cast Iff.rfl

theorem Decimal.val_nonneg (d : Decimal) : 0 ≤ d.val ↔ 0 ≤ d.mantissa := by
  rw [Decimal.val, le_div_iff₀ (by positivity), zero_mul]
  exact_mod_cast Iff.rfl

/-! ## Held-balance bookkeeping -/

/-- The amount a stored record contributes to the held balance:
only deposits currently under dispute contribute. -/
def contrib : Transaction → ℚ
  | .Deposit a .Disputed => a.val
  | _ => 0

/-- The sum of disputed deposit amounts in a transactions map. -/
def disputedSum (l : List (Nat × Transaction)) : ℚ :=
  (l.map (fun p => contrib p.2)).sum

theorem disputedSum_append (l m : List (Nat × Transaction)) :
    disputedSum (l ++ m) = disputedSum l + disputedSum m := by
  simp [disputedSum]

theorem disputedSum_alInsert_some {l : List (Nat × Transaction)} {t : Nat}
    {old : Transaction} (v : Transaction) (h : alGet l t = some old) :
    disputedSum (alInsert l t v) = disputedSum l + contrib v - contrib old := by
  induction l with
  | nil => simp [alGet] at h
  | cons p rest ih =>
    obtain ⟨k, w⟩ := p
    by_cases h2 : k = t
    · subst h2
      simp [alGet] at h
      subst h
      simp [alInsert, disputedSum]
      ring
    · simp [alGet, h2] at h
      simp [alInsert, h2, disputedSum] at ih ⊢
      rw [ih h]
      ring

theorem disputedSum_alInsert_none {l : List (Nat × Transaction)} {t : Nat}
    (v : Transaction) (h : alGet l t = none) :
    disputedSum (alInsert l t v) = disputedSum l + contrib v := by
  rw [alInsert_of_none v h, disputedSum_append]
  simp [disputedSum]

/-! ## Branch characterizations of the engine operations -/

/-- A deposit whose transaction id was already processed only materializes
the account entry (the `entry().or_default()` side effect) and stops. -/
theorem Engine.deposit_dup (e : Engine) (c t : Nat) (a : Decimal)
    (h : t ∈ e.transaction_ids_processed) :
    e.deposit c t a = { e with accounts := alEnsure e.accounts c } := by
  unfold Engine.deposit Engine.get_unlocked_account_or_default
  simp only [alGet_alEnsure_self]
  by_cases hl : ((alGet e.accounts c).getD ({} : Account)).locked <;> simp [hl, h]

/-- A deposit against a locked account only materializes the entry. -/
theorem Engine.deposit_locked (e : Engine) (c t : Nat) (a : Decimal)
    (h : ((alGet e.accounts c).getD ({} : Account)).locked = true) :
    e.deposit c t a = { e with accounts := alEnsure e.accounts c } := by
  unfold Engine.deposit Engine.get_unlocked_account_or_default
  simp only [alGet_alEnsure_self]
  simp [h]

/-- A deposit on an unlocked (or absent) account with a fresh transaction
id applies `available += amount` and stores the record. -/
theorem Engine.deposit_success (e : Engine) (c t : Nat) (a : Decimal)
    (hl : ((alGet e.accounts c).getD ({} : Account)).locked = false)
    (hm : t ∉ e.transaction_ids_processed) :
    e.deposit c t a =
      { accounts := alInsert (alEnsure e.accounts c) c
          { (alGet e.accounts c).getD ({} : Account) with
            available := ((alGet e.accounts c).getD ({} : Account)).available.add a,
            transactions := alInsert ((alGet e.accounts c).getD ({} : Account)).transactions
              t (.Deposit a .Normal) },
        transaction_ids_processed := t :: e.transaction_ids_processed } := by
  unfold Engine.deposit Engine.get_unlocked_account_or_default
  simp only [alGet_alEnsure_self]
  simp [hl, hm]

/-- A withdrawal whose transaction id was already processed only
materializes the account entry and stops. -/
theorem Engine.withdraw_dup (e : Engine) (c t : Nat) (a : Decimal)
    (h : t ∈ e.transaction_ids_processed) :
    e.withdraw c t a = { e with accounts := alEnsure e.accounts c } := by
  unfold Engine.withdraw Engine.get_unlocked_account_or_default
  simp only [alGet_alEnsure_self]
  by_cases hl : ((alGet e.accounts c).getD ({} : Account)).locked <;> simp [hl, h]

/-- A withdrawal against a locked account only materializes the entry. -/
theorem Engine.withdraw_locked (e : Engine) (c t : Nat) (a : Decimal)
    (h : ((alGet e.accounts c).getD ({} : Account)).locked = true) :
    e.withdraw c t a = { e with accounts := alEnsure e.accounts c } := by
  unfold Engine.withdraw Engine.get_unlocked_account_or_default
  simp only [alGet_alEnsure_self]
  simp [h]

/-- An unlocked, fresh-id withdrawal with insufficient available funds
only materializes the entry (`available < amount` is checked against the
available balance alone). -/
theorem Engine.withdraw_insufficient (e : Engine) (c t : Nat) (a : Decimal)
    (hl : ((alGet e.accounts c).getD ({} : Account)).locked = false)
    (hm : t ∉ e.transaction_ids_processed)
    (hlt : Decimal.lt ((alGet e.accounts c).getD ({} : Account)).available a) :
    e.withdraw c t a = { e with accounts := alEnsure e.accounts c } := by
  unfold Engine.withdraw Engine.get_unlocked_account_or_default
  simp only [alGet_alEnsure_self]
  simp [hl, hm, hlt]

/-- An unlocked, fresh-id withdrawal with sufficient available funds
applies `available -= amount` and stores the record. -/
theorem Engine.withdraw_success (e : Engine) (c t : Nat) (a : Decimal)
    (hl : ((alGet e.accounts c).getD ({} : Account)).locked = false)
    (hm : t ∉ e.transaction_ids_processed)
    (hge : ¬ Decimal.lt ((alGet e.accounts c).getD ({} : Account)).available a) :
    e.withdraw c t a =
      { accounts := alInsert (alEnsure e.accounts c) c
          { (alGet e.accounts c).getD ({} : Account) with
            available := ((alGet e.accounts c).getD ({} : Account)).available.sub a,
            transactions := alInsert ((alGet e.accounts c).getD ({} : Account)).transactions
              t (.Withdrawal a) },
        transaction_ids_processed := t :: e.transaction_ids_processed } := by
  unfold Engine.withdraw Engine.get_unlocked_account_or_default
  simp only [alGet_alEnsure_self]
  simp [hl, hm, hge]

/-- Dispute against an unknown client is a complete no-op. -/
theorem Engine.dispute_no_account (e : Engine) (c t : Nat)
    (h : alGet e.accounts c = none) : e.dispute c t = e := by
  unfold Engine.dispute Engine.get_unlocked_account
  simp [h]

/-- Dispute against a locked account is a complete no-op. -/
theorem Engine.dispute_of_locked (e : Engine) (c t : Nat) {A : Account}
    (h : alGet e.accounts c = some A) (hl : A.locked = true) : e.dispute c t = e := by
  unfold Engine.dispute Engine.get_unlocked_account
  simp [h, hl]

/-- Dispute when the account holds no deposit record in `Normal` state
under the id is a complete no-op. -/
theorem Engine.dispute_no_normal (e : Engine) (c t : Nat) {A : Account}
    (h : alGet e.accounts c = some A) (hl : A.locked = false)
    (hr : ∀ a, alGet A.transactions t ≠ some (.Deposit a .Normal)) :
    e.dispute c t = e := by
  unfold Engine.dispute Engine.get_unlocked_account
  simp only [h, hl]
  cases hrec : alGet A.transactions t with
  | none => simp [hrec]
  | some tr =>
    cases tr with
    | Withdrawal a => simp [hrec]
    | Deposit a st =>
      cases st with
      | Normal => exact absurd hrec (hr a)
      | Disputed => simp [hrec]
      | Resolved => simp [hrec]
      | ChargedBack => simp [hrec]

/-- Dispute of a `Normal` deposit record: `available -= amount`,
`held += amount`, state becomes `Disputed`. -/
theorem Engine.dispute_success (e : Engine) (c t : Nat) {A : Account} {a : Decimal}
    (h : alGet e.accounts c = some A) (hl : A.locked = false)
    (hr : alGet A.transactions t = some (.Deposit a .Normal)) :
    e.dispute c t =
      { e with accounts := alInsert e.accounts c
                  ({ A with available := A.available.sub a, held := A.held.add a,
                            transactions := alInsert A.transactions t
                              (.Deposit a .Disputed) }) } := by
  unfold Engine.dispute Engine.get_unlocked_account
  simp [h, hl, hr]

/-- Resolve against an unknown client is a complete no-op. -/
theorem Engine.resolve_no_account (e : Engine) (c t : Nat)
    (h : alGet e.accounts c = none) : e.resolve c t = e := by
  unfold Engine.resolve Engine.get_unlocked_account
  simp [h]

/-- Resolve against a locked account is a complete no-op. -/
theorem Engine.resolve_of_locked (e : Engine) (c t : Nat) {A : Account}
    (h : alGet e.accounts c = some A) (hl : A.locked = true) : e.resolve c t = e := by
  unfold Engine.resolve Engine.get_unlocked_account
  simp [h, hl]

/-- Resolve when the account holds no deposit record in `Disputed` state
under the id is a complete no-op. -/
theorem Engine.resolve_no_disputed (e : Engine) (c t : Nat) {A : Account}
    (h : alGet e.accounts c = some A) (hl : A.locked = false)
    (hr : ∀ a, alGet A.transactions t ≠ some (.Deposit a .Disputed)) :
    e.resolve c t = e := by
  unfold Engine.resolve Engine.get_unlocked_account
  simp only [h, hl]
  cases hrec : alGet A.transactions t with
  | none => simp [hrec]
  | some tr =>
    cases tr with
    | Withdrawal a => simp [hrec]
    | Deposit a st =>
      cases st with
      | Disputed => exact absurd hrec (hr a)
      | Normal => simp [hrec]
      | Resolved => simp [hrec]
      | ChargedBack => simp [hrec]

/-- Resolve of a `Disputed` deposit record: `held -= amount`,
`available += amount`, state becomes `Resolved`. -/
theorem Engine.resolve_success (e : Engine) (c t : Nat) {A : Account} {a : Decimal}
    (h : alGet e.accounts c = some A) (hl : A.locked = false)
    (hr : alGet A.transactions t = some (.Deposit a .Disputed)) :
    e.resolve c t =
      { e with accounts := alInsert e.accounts c
                  ({ A with held := A.held.sub a, available := A.available.add a,
                            transactions := alInsert A.transactions t
                              (.Deposit a .Resolved) }) } := by
  unfold Engine.resolve Engine.get_unlocked_account
  simp [h, hl, hr]

/-- Chargeback against an unknown client is a complete no-op. -/
theorem Engine.chargeback_no_account (e : Engine) (c t : Nat)
    (h : alGet e.accounts c = none) : e.chargeback c t = e := by
  unfold Engine.chargeback Engine.get_unlocked_account
  simp [h]

/-- Chargeback against a locked account is a complete no-op. -/
theorem Engine.chargeback_of_locked (e : Engine) (c t : Nat) {A : Account}
    (h : alGet e.accounts c = some A) (hl : A.locked = true) : e.chargeback c t = e := by
  unfold Engine.chargeback Engine.get_unlocked_account
  simp [h, hl]

/-- Chargeback when the account holds no deposit record in `Disputed`
state under the id is a complete no-op. -/
theorem Engine.chargeback_no_disputed (e : Engine) (c t : Nat) {A : Account}
    (h : alGet e.accounts c = some A) (hl : A.locked = false)
    (hr : ∀ a, alGet A.transactions t ≠ some (.Deposit a .Disputed)) :
    e.chargeback c t = e := by
  unfold Engine.chargeback Engine.get_unlocked_account
  simp only [h, hl]
  cases hrec : alGet A.transactions t with
  | none => simp [hrec]
  | some tr =>
    cases tr with
    | Withdrawal a => simp [hrec]
    | Deposit a st =>
      cases st with
      | Disputed => exact absurd hrec (hr a)
      | Normal => simp [hrec]
      | Resolved => simp [hrec]
      | ChargedBack => simp [hrec]

/-- Chargeback of a `Disputed` deposit record: `held -= amount`, the
account is locked, state becomes `ChargedBack`. -/
theorem Engine.chargeback_success (e : Engine) (c t : Nat) {A : Account} {a : Decimal}
    (h : alGet e.accounts c = some A) (hl : A.locked = false)
    (hr : alGet A.transactions t = some (.Deposit a .Disputed)) :
    e.chargeback c t =
      { e with accounts := alInsert e.accounts c
                  ({ A with held := A.held.sub a, locked := true,
                            transactions := alInsert A.transactions t
                              (.Deposit a .ChargedBack) }) } := by
  unfold Engine.chargeback Engine.get_unlocked_account
  simp [h, hl, hr]

/-! ## Reachable-state invariants -/

theorem alGet_alInsert_cases {α : Type} (l : List (Nat × α)) (k : Nat) (v : α)
    (k' : Nat) :
    alGet (alInsert l k v) k' = if k = k' then some v else alGet l k' := by
  by_cases h : k = k'
  · subst h; simp [alGet_alInsert_self]
  · simp [h, alGet_alInsert_ne l v h]

theorem alGet_alEnsure_cases (l : List (Nat × Account)) (k k' : Nat) :
    alGet (alEnsure l k) k' =
      if k = k' then some ((alGet l k).getD ({} : Account)) else alGet l k' := by
  by_cases h : k = k'
  · subst h; simp [alGet_alEnsure_self]
  · simp [h, alGet_alEnsure_ne l h]

/-- Every transaction id stored in the account appears in `p`. -/
def AccountKeysIn (acct : Account) (p : List Nat) : Prop :=
  ∀ t tr, alGet acct.transactions t = some tr → t ∈ p

/-- Every transaction id stored in any account was processed. -/
def KeysProcessed (e : Engine) : Prop :=
  ∀ c acct, alGet e.accounts c = some acct →
    AccountKeysIn acct e.transaction_ids_processed

/-- Every account's held balance equals the sum of its currently
disputed deposit amounts. -/
def HeldSum (e : Engine) : Prop :=
  ∀ c acct, alGet e.accounts c = some acct →
    acct.held.val = disputedSum acct.transactions

/-- Every stored deposit record carries a nonnegative amount (over all
entries of the association list, shadowed or not). -/
def AmountsNonneg (e : Engine) : Prop :=
  ∀ c acct t a st, alGet e.accounts c = some acct →
    (t, Transaction.Deposit a st) ∈ acct.transactions → 0 ≤ a.mantissa

theorem AccountKeysIn.default (p : List Nat) : AccountKeysIn ({} : Account) p := by
  intro t tr h
  simp [alGet] at h

theorem AccountKeysIn.mono {acct : Account} {p q : List Nat}
    (h : AccountKeysIn acct p) (hpq : ∀ x ∈ p, x ∈ q) : AccountKeysIn acct q :=
  fun t tr htr => hpq t (h t tr htr)

theorem keysProcessed_getD {e : Engine} (hK : KeysProcessed e) (c : Nat) :
    AccountKeysIn ((alGet e.accounts c).getD ({} : Account))
      e.transaction_ids_processed := by
  cases h : alGet e.accounts c with
  | some A => simpa using hK c A h
  | none => simpa using AccountKeysIn.default _

theorem heldSum_getD {e : Engine} (hH : HeldSum e) (c : Nat) :
    ((alGet e.accounts c).getD ({} : Account)).held.val =
      disputedSum ((alGet e.accounts c).getD ({} : Account)).transactions := by
  cases h : alGet e.accounts c with
  | some A => simpa using hH c A h
  | none => simp [disputedSum, Decimal.val_zero]

theorem keysProcessed_ensure {e : Engine} (hK : KeysProcessed e) (c : Nat) :
    KeysProcessed { e with accounts := alEnsure e.accounts c } := by
  intro c2 acct2 hget
  rw [alGet_alEnsure_cases] at hget
  split at hget
  · cases hget
    exact keysProcessed_getD hK c
  · exact hK c2 acct2 hget

theorem heldSum_ensure {e : Engine} (hH : HeldSum e) (c : Nat) :
    HeldSum { e with accounts := alEnsure e.accounts c } := by
  intro c2 acct2 hget
  rw [alGet_alEnsure_cases] at hget
  split at hget
  · cases hget
    exact heldSum_getD hH c
  · exact hH c2 acct2 hget

theorem mem_alInsert {α : Type} {l : List (Nat × α)} {k : Nat} {v : α}
    {p : Nat × α} (h : p ∈ alInsert l k v) : p = (k, v) ∨ p ∈ l := by
  induction l with
  | nil =>
    simp only [alInsert, List.mem_singleton] at h
    exact Or.inl h
  | cons q rest ih =>
    obtain ⟨k2, w⟩ := q
    by_cases hk : k2 = k
    · subst hk
      simp [alInsert] at h
      exact h.imp id (List.mem_cons_of_mem _)
    · simp only [alInsert, if_neg hk, List.mem_cons] at h
      rcases h with h | h
      · exact Or.inr (by rw [h]; exact List.mem_cons_self _ _)
      · exact (ih h).imp id (List.mem_cons_of_mem _)

theorem alGet_mem {α : Type} : ∀ {l : List (Nat × α)} {k : Nat} {v : α},
    alGet l k = some v → (k, v) ∈ l := by
  intro l
  induction l with
  | nil => intro k v h; simp [alGet] at h
  | cons q rest ih =>
    intro k v h
    obtain ⟨k2, w⟩ := q
    by_cases hk : k2 = k
    · subst hk
      simp only [alGet, if_pos rfl] at h
      cases h
      exact List.mem_cons_self _ _
    · simp only [alGet, if_neg hk] at h
      exact List.mem_cons_of_mem _ (ih h)

theorem amountsNonneg_ensure {e : Engine} (hA : AmountsNonneg e) (c : Nat) :
    AmountsNonneg { e with accounts := alEnsure e.accounts c } := by
  intro c2 acct2 t a st hget htr
  rw [alGet_alEnsure_cases] at hget
  split at hget
  · cases hget
    rename_i hc
    cases h : alGet e.accounts c with
    | some A => rw [h] at htr; exact hA c A t a st h (by simpa using htr)
    | none => rw [h] at htr; simp at htr
  · exact hA c2 acct2 t a st hget htr

theorem keysProcessed_step (e : Engine) (cmd : InputTransaction)
    (hK : KeysProcessed e) : KeysProcessed (e.process_record cmd) := by
  cases cmd with
  | Deposit c t a =>
    show KeysProcessed (e.deposit c t a)
    by_cases hm : t ∈ e.transaction_ids_processed
    · rw [Engine.deposit_dup e c t a hm]
      exact keysProcessed_ensure hK c
    · by_cases hl : ((alGet e.accounts c).getD ({} : Account)).locked
      · rw [Engine.deposit_locked e c t a hl]
        exact keysProcessed_ensure hK c
      · rw [Engine.deposit_success e c t a (by simpa using hl) hm]
        intro c2 acct2 hget
        rw [alGet_alInsert_cases] at hget
        split at hget
        · cases hget
          intro t2 tr2 htr2
          rw [alGet_alInsert_cases] at htr2
          split at htr2
          · rename_i ht; subst ht; simp
          · exact List.mem_cons_of_mem _ (keysProcessed_getD hK c t2 tr2 htr2)
        · rw [alGet_alEnsure_cases] at hget
          split at hget
          · cases hget
            exact (keysProcessed_getD hK c).mono (fun x hx => List.mem_cons_of_mem _ hx)
          · exact (hK c2 acct2 hget).mono (fun x hx => List.mem_cons_of_mem _ hx)
  | Withdrawal c t a =>
    show KeysProcessed (e.withdraw c t a)
    by_cases hm : t ∈ e.transaction_ids_processed
    · rw [Engine.withdraw_dup e c t a hm]
      exact keysProcessed_ensure hK c
    · by_cases hl : ((alGet e.accounts c).getD ({} : Account)).locked
      · rw [Engine.withdraw_locked e c t a hl]
        exact keysProcessed_ensure hK c
      · by_cases hlt : Decimal.lt ((alGet e.accounts c).getD ({} : Account)).available a
        · rw [Engine.withdraw_insufficient e c t a (by simpa using hl) hm hlt]
          exact keysProcessed_ensure hK c
        · rw [Engine.withdraw_success e c t a (by simpa using hl) hm hlt]
          intro c2 acct2 hget
          rw [alGet_alInsert_cases] at hget
          split at hget
          · cases hget
            intro t2 tr2 htr2
            rw [alGet_alInsert_cases] at htr2
            split at htr2
            · rename_i ht; subst ht; simp
            · exact List.mem_cons_of_mem _ (keysProcessed_getD hK c t2 tr2 htr2)
          · rw [alGet_alEnsure_cases] at hget
            split at hget
            · cases hget
              exact (keysProcessed_getD hK c).mono (fun x hx => List.mem_cons_of_mem _ hx)
            · exact (hK c2 acct2 hget).mono (fun x hx => List.mem_cons_of_mem _ hx)
  | Dispute c t =>
    show KeysProcessed (e.dispute c t)
    cases hacct : alGet e.accounts c with
    | none => rw [Engine.dispute_no_account e c t hacct]; exact hK
    | some A =>
      by_cases hl : A.locked
      · rw [Engine.dispute_of_locked e c t hacct hl]; exact hK
      · by_cases hr : ∃ a, alGet A.transactions t = some (.Deposit a .Normal)
        · obtain ⟨a, hr⟩ := hr
          rw [Engine.dispute_success e c t hacct (by simpa using hl) hr]
          intro c2 acct2 hget
          rw [alGet_alInsert_cases] at hget
          split at hget
          · cases hget
            intro t2 tr2 htr2
            rw [alGet_alInsert_cases] at htr2
            split at htr2
            · rename_i ht; subst ht; exact hK c A hacct t (.Deposit a .Normal) hr
            · exact hK c A hacct t2 tr2 htr2
          · exact hK c2 acct2 hget
        · push_neg at hr
          rw [Engine.dispute_no_normal e c t hacct (by simpa using hl) hr]
          exact hK
  | Resolve c t =>
    show KeysProcessed (e.resolve c t)
    cases hacct : alGet e.accounts c with
    | none => rw [Engine.resolve_no_account e c t hacct]; exact hK
    | some A =>
      by_cases hl : A.locked
      · rw [Engine.resolve_of_locked e c t hacct hl]; exact hK
      · by_cases hr : ∃ a, alGet A.transactions t = some (.Deposit a .Disputed)
        · obtain ⟨a, hr⟩ := hr
          rw [Engine.resolve_success e c t hacct (by simpa using hl) hr]
          intro c2 acct2 hget
          rw [alGet_alInsert_cases] at hget
          split at hget
          · cases hget
            intro t2 tr2 htr2
            rw [alGet_alInsert_cases] at htr2
            split at htr2
            · rename_i ht; subst ht; exact hK c A hacct t (.Deposit a .Disputed) hr
            · exact hK c A hacct t2 tr2 htr2
          · exact hK c2 acct2 hget
        · push_neg at hr
          rw [Engine.resolve_no_disputed e c t hacct (by simpa using hl) hr]
          exact hK
  | Chargeback c t =>
    show KeysProcessed (e.chargeback c t)
    cases hacct : alGet e.accounts c with
    | none => rw [Engine.chargeback_no_account e c t hacct]; exact hK
    | some A =>
      by_cases hl : A.locked
      · rw [Engine.chargeback_of_locked e c t hacct hl]; exact hK
      · by_cases hr : ∃ a, alGet A.transactions t = some (.Deposit a .Disputed)
        · obtain ⟨a, hr⟩ := hr
          rw [Engine.chargeback_success e c t hacct (by simpa using hl) hr]
          intro c2 acct2 hget
          rw [alGet_alInsert_cases] at hget
          split at hget
          · cases hget
            intro t2 tr2 htr2
            rw [alGet_alInsert_cases] at htr2
            split at htr2
            · rename_i ht; subst ht; exact hK c A hacct t (.Deposit a .Disputed) hr
            · exact hK c A hacct t2 tr2 htr2
          · exact hK c2 acct2 hget
        · push_neg at hr
          rw [Engine.chargeback_no_disputed e c t hacct (by simpa using hl) hr]
          exact hK

theorem AccountKeysIn.get_none {A : Account} {p : List Nat}
    (hKI : AccountKeysIn A p) {t : Nat} (hm : t ∉ p) :
    alGet A.transactions t = none := by
  cases h : alGet A.transactions t with
  | none => rfl
  | some tr => exact absurd (hKI t tr h) hm

theorem amountsNonneg_getD {e : Engine} (hA : AmountsNonneg e) (c : Nat)
    {t : Nat} {a : Decimal} {st : TransactionState}
    (h : (t, Transaction.Deposit a st) ∈
      ((alGet e.accounts c).getD ({} : Account)).transactions) : 0 ≤ a.mantissa := by
  cases hacct : alGet e.accounts c with
  | some A => rw [hacct] at h; exact hA c A t a st hacct (by simpa using h)
  | none => rw [hacct] at h; simp at h

theorem heldSum_step (e : Engine) (cmd : InputTransaction)
    (hK : KeysProcessed e) (hH : HeldSum e) : HeldSum (e.process_record cmd) := by
  cases cmd with
  | Deposit c t a =>
    show HeldSum (e.deposit c t a)
    by_cases hm : t ∈ e.transaction_ids_processed
    · rw [Engine.deposit_dup e c t a hm]
      exact heldSum_ensure hH c
    · by_cases hl : ((alGet e.accounts c).getD ({} : Account)).locked
      · rw [Engine.deposit_locked e c t a hl]
        exact heldSum_ensure hH c
      · rw [Engine.deposit_success e c t a (by simpa using hl) hm]
        intro c2 acct2 hget
        rw [alGet_alInsert_cases] at hget
        split at hget
        · cases hget
          have hnone : alGet ((alGet e.accounts c).getD ({} : Account)).transactions t =
              none := (keysProcessed_getD hK c).get_none hm
          simp only [disputedSum_alInsert_none _ hnone]
          have := heldSum_getD hH c
          simp [contrib, this]
        · rw [alGet_alEnsure_cases] at hget
          split at hget
          · cases hget
            exact heldSum_getD hH c
          · exact hH c2 acct2 hget
  | Withdrawal c t a =>
    show HeldSum (e.withdraw c t a)
    by_cases hm : t ∈ e.transaction_ids_processed
    · rw [Engine.withdraw_dup e c t a hm]
      exact heldSum_ensure hH c
    · by_cases hl : ((alGet e.accounts c).getD ({} : Account)).locked
      · rw [Engine.withdraw_locked e c t a hl]
        exact heldSum_ensure hH c
      · by_cases hlt : Decimal.lt ((alGet e.accounts c).getD ({} : Account)).available a
        · rw [Engine.withdraw_insufficient e c t a (by simpa using hl) hm hlt]
          exact heldSum_ensure hH c
        · rw [Engine.withdraw_success e c t a (by simpa using hl) hm hlt]
          intro c2 acct2 hget
          rw [alGet_alInsert_cases] at hget
          split at hget
          · cases hget
            have hnone : alGet ((alGet e.accounts c).getD ({} : Account)).transactions t =
                none := (keysProcessed_getD hK c).get_none hm
            simp only [disputedSum_alInsert_none _ hnone]
            have := heldSum_getD hH c
            simp [contrib, this]
          · rw [alGet_alEnsure_cases] at hget
            split at hget
            · cases hget
              exact heldSum_getD hH c
            · exact hH c2 acct2 hget
  | Dispute c t =>
    show HeldSum (e.dispute c t)
    cases hacct : alGet e.accounts c with
    | none => rw [Engine.dispute_no_account e c t hacct]; exact hH
    | some A =>
      by_cases hl : A.locked
      · rw [Engine.dispute_of_locked e c t hacct hl]; exact hH
      · by_cases hr : ∃ a, alGet A.transactions t = some (.Deposit a .Normal)
        · obtain ⟨a, hr⟩ := hr
          rw [Engine.dispute_success e c t hacct (by simpa using hl) hr]
          intro c2 acct2 hget
          rw [alGet_alInsert_cases] at hget
          split at hget
          · cases hget
            simp only [disputedSum_alInsert_some _ hr]
            have := hH c A hacct
            simp [contrib, Decimal.val_add, this]
          · exact hH c2 acct2 hget
        · push_neg at hr
          rw [Engine.dispute_no_normal e c t hacct (by simpa using hl) hr]
          exact hH
  | Resolve c t =>
    show HeldSum (e.resolve c t)
    cases hacct : alGet e.accounts c with
    | none => rw [Engine.resolve_no_account e c t hacct]; exact hH
    | some A =>
      by_cases hl : A.locked
      · rw [Engine.resolve_of_locked e c t hacct hl]; exact hH
      · by_cases hr : ∃ a, alGet A.transactions t = some (.Deposit a .Disputed)
        · obtain ⟨a, hr⟩ := hr
          rw [Engine.resolve_success e c t hacct (by simpa using hl) hr]
          intro c2 acct2 hget
          rw [alGet_alInsert_cases] at hget
          split at hget
          · cases hget
            simp only [disputedSum_alInsert_some _ hr]
            have := hH c A hacct
            simp [contrib, Decimal.val_sub, this]
          · exact hH c2 acct2 hget
        · push_neg at hr
          rw [Engine.resolve_no_disputed e c t hacct (by simpa using hl) hr]
          exact hH
  | Chargeback c t =>
    show HeldSum (e.chargeback c t)
    cases hacct : alGet e.accounts c with
    | none => rw [Engine.chargeback_no_account e c t hacct]; exact hH
    | some A =>
      by_cases hl : A.locked
      · rw [Engine.chargeback_of_locked e c t hacct hl]; exact hH
      · by_cases hr : ∃ a, alGet A.transactions t = some (.Deposit a .Disputed)
        · obtain ⟨a, hr⟩ := hr
          rw [Engine.chargeback_success e c t hacct (by simpa using hl) hr]
          intro c2 acct2 hget
          rw [alGet_alInsert_cases] at hget
          split at hget
          · cases hget
            simp only [disputedSum_alInsert_some _ hr]
            have := hH c A hacct
            simp [contrib, Decimal.val_sub, this]
          · exact hH c2 acct2 hget
        · push_neg at hr
          rw [Engine.chargeback_no_disputed e c t hacct (by simpa using hl) hr]
          exact hH

theorem amountsNonneg_step (e : Engine) (cmd : InputTransaction)
    (hA : AmountsNonneg e)
    (hcmd : ∀ c t a, cmd = .Deposit c t a → 0 ≤ a.mantissa) :
    AmountsNonneg (e.process_record cmd) := by
  cases cmd with
  | Deposit c t a =>
    show AmountsNonneg (e.deposit c t a)
    by_cases hm : t ∈ e.transaction_ids_processed
    · rw [Engine.deposit_dup e c t a hm]
      exact amountsNonneg_ensure hA c
    · by_cases hl : ((alGet e.accounts c).getD ({} : Account)).locked
      · rw [Engine.deposit_locked e c t a hl]
        exact amountsNonneg_ensure hA c
      · rw [Engine.deposit_success e c t a (by simpa using hl) hm]
        intro c2 acct2 t2 a2 st2 hget htr2
        rw [alGet_alInsert_cases] at hget
        split at hget
        · cases hget
          rcases mem_alInsert (by simpa using htr2) with heq | hmem
          · injection heq with h1 h2
            injection h2 with h3 h4
            have := hcmd c t a rfl
            rwa [h3]
          · exact amountsNonneg_getD hA c hmem
        · rw [alGet_alEnsure_cases] at hget
          split at hget
          · cases hget
            exact amountsNonneg_getD hA c htr2
          · exact hA c2 acct2 t2 a2 st2 hget htr2
  | Withdrawal c t a =>
    show AmountsNonneg (e.withdraw c t a)
    by_cases hm : t ∈ e.transaction_ids_processed
    · rw [Engine.withdraw_dup e c t a hm]
      exact amountsNonneg_ensure hA c
    · by_cases hl : ((alGet e.accounts c).getD ({} : Account)).locked
      · rw [Engine.withdraw_locked e c t a hl]
        exact amountsNonneg_ensure hA c
      · by_cases hlt : Decimal.lt ((alGet e.accounts c).getD ({} : Account)).available a
        · rw [Engine.withdraw_insufficient e c t a (by simpa using hl) hm hlt]
          exact amountsNonneg_ensure hA c
        · rw [Engine.withdraw_success e c t a (by simpa using hl) hm hlt]
          intro c2 acct2 t2 a2 st2 hget htr2
          rw [alGet_alInsert_cases] at hget
          split at hget
          · cases hget
            rcases mem_alInsert (by simpa using htr2) with heq | hmem
            · injection heq with h1 h2
              injection h2
            · exact amountsNonneg_getD hA c hmem
          · rw [alGet_alEnsure_cases] at hget
            split at hget
            · cases hget
              exact amountsNonneg_getD hA c htr2
            · exact hA c2 acct2 t2 a2 st2 hget htr2
  | Dispute c t =>
    show AmountsNonneg (e.dispute c t)
    cases hacct : alGet e.accounts c with
    | none => rw [Engine.dispute_no_account e c t hacct]; exact hA
    | some A =>
      by_cases hl : A.locked
      · rw [Engine.dispute_of_locked e c t hacct hl]; exact hA
      · by_cases hr : ∃ a, alGet A.transactions t = some (.Deposit a .Normal)
        · obtain ⟨a, hr⟩ := hr
          rw [Engine.dispute_success e c t hacct (by simpa using hl) hr]
          intro c2 acct2 t2 a2 st2 hget htr2
          rw [alGet_alInsert_cases] at hget
          split at hget
          · cases hget
            rcases mem_alInsert (by simpa using htr2) with heq | hmem
            · injection heq with h1 h2
              injection h2 with h3 h4
              have := hA c A t a .Normal hacct (alGet_mem hr)
              rwa [h3]
            · exact hA c A t2 a2 st2 hacct hmem
          · exact hA c2 acct2 t2 a2 st2 hget htr2
        · push_neg at hr
          rw [Engine.dispute_no_normal e c t hacct (by simpa using hl) hr]
          exact hA
  | Resolve c t =>
    show AmountsNonneg (e.resolve c t)
    cases hacct : alGet e.accounts c with
    | none => rw [Engine.resolve_no_account e c t hacct]; exact hA
    | some A =>
      by_cases hl : A.locked
      · rw [Engine.resolve_of_locked e c t hacct hl]; exact hA
      · by_cases hr : ∃ a, alGet A.transactions t = some (.Deposit a .Disputed)
        · obtain ⟨a, hr⟩ := hr
          rw [Engine.resolve_success e c t hacct (by simpa using hl) hr]
          intro c2 acct2 t2 a2 st2 hget htr2
          rw [alGet_alInsert_cases] at hget
          split at hget
          · cases hget
            rcases mem_alInsert (by simpa using htr2) with heq | hmem
            · injection heq with h1 h2
              injection h2 with h3 h4
              have := hA c A t a .Disputed hacct (alGet_mem hr)
              rwa [h3]
            · exact hA c A t2 a2 st2 hacct hmem
          · exact hA c2 acct2 t2 a2 st2 hget htr2
        · push_neg at hr
          rw [Engine.resolve_no_disputed e c t hacct (by simpa using hl) hr]
          exact hA
  | Chargeback c t =>
    show AmountsNonneg (e.chargeback c t)
    cases hacct : alGet e.accounts c with
    | none => rw [Engine.chargeback_no_account e c t hacct]; exact hA
    | some A =>
      by_cases hl : A.locked
      · rw [Engine.chargeback_of_locked e c t hacct hl]; exact hA
      · by_cases hr : ∃ a, alGet A.transactions t = some (.Deposit a .Disputed)
        · obtain ⟨a, hr⟩ := hr
          rw [Engine.chargeback_success e c t hacct (by simpa using hl) hr]
          intro c2 acct2 t2 a2 st2 hget htr2
          rw [alGet_alInsert_cases] at hget
          split at hget
          · cases hget
            rcases mem_alInsert (by simpa using htr2) with heq | hmem
            · injection heq with h1 h2
              injection h2 with h3 h4
              have := hA c A t a .Disputed hacct (alGet_mem hr)
              rwa [h3]
            · exact hA c A t2 a2 st2 hacct hmem
          · exact hA c2 acct2 t2 a2 st2 hget htr2
        · push_neg at hr
          rw [Engine.chargeback_no_disputed e c t hacct (by simpa using hl) hr]
          exact hA

/-- All deposit commands in the list carry nonnegative amounts. -/
def DepositsNonneg (cs : List InputTransaction) : Prop :=
  ∀ c t a, InputTransaction.Deposit c t a ∈ cs → 0 ≤ a.mantissa

theorem keysProcessed_heldSum_runFrom (cs : List InputTransaction) :
    ∀ e : Engine, KeysProcessed e → HeldSum e →
      KeysProcessed (e.runFrom cs) ∧ HeldSum (e.runFrom cs) := by
  induction cs with
  | nil => exact fun e hK hH => ⟨hK, hH⟩
  | cons cmd rest ih =>
    intro e hK hH
    exact ih _ (keysProcessed_step e cmd hK) (heldSum_step e cmd hK hH)

theorem keysProcessed_new : KeysProcessed Engine.new := by
  intro c acct h
  simp [Engine.new, alGet] at h

theorem heldSum_new : HeldSum Engine.new := by
  intro c acct h
  simp [Engine.new, alGet] at h

theorem amountsNonneg_new : AmountsNonneg Engine.new := by
  intro c acct t a st h
  simp [Engine.new, alGet] at h

theorem keysProcessed_runCmds (cs : List InputTransaction) :
    KeysProcessed (runCmds cs) :=
  (keysProcessed_heldSum_runFrom cs Engine.new keysProcessed_new heldSum_new).1

theorem heldSum_runCmds (cs : List InputTransaction) : HeldSum (runCmds cs) :=
  (keysProcessed_heldSum_runFrom cs Engine.new keysProcessed_new heldSum_new).2

theorem amountsNonneg_runFrom (cs : List InputTransaction) :
    ∀ e : Engine, AmountsNonneg e → DepositsNonneg cs →
      AmountsNonneg (e.runFrom cs) := by
  induction cs with
  | nil => exact fun e hA _ => hA
  | cons cmd rest ih =>
    intro e hA hcs
    refine ih _ (amountsNonneg_step e cmd hA ?_) ?_
    · intro c t a hcmd
      exact hcs c t a (hcmd ▸ List.mem_cons_self _ _)
    · intro c t a hmem
      exact hcs c t a (List.mem_cons_of_mem _ hmem)

theorem amountsNonneg_runCmds (cs : List InputTransaction) (h : DepositsNonneg cs) :
    AmountsNonneg (runCmds cs) :=
  amountsNonneg_runFrom cs Engine.new amountsNonneg_new h

theorem getRecord_of {e : Engine} {c t : Nat} {A : Account} {tr : Transaction}
    (hacct : alGet e.accounts c = some A) (htr : alGet A.transactions t = some tr) :
    e.getRecord c t = some tr := by
  unfold Engine.getRecord
  rw [hacct]
  simpa using htr

/-- One step of any command moves a stored deposit record's dispute state
only along the allowed transitions, and never changes its amount. -/
theorem record_step (e : Engine) (cmd : InputTransaction) (hK : KeysProcessed e)
    (c t : Nat) (a : Decimal) (st : TransactionState)
    (h : e.getRecord c t = some (.Deposit a st)) :
    ∃ st', (e.process_record cmd).getRecord c t = some (.Deposit a st') ∧
      st.stepOK st' := by
  obtain ⟨A, hacct, htr⟩ : ∃ A, alGet e.accounts c = some A ∧
      alGet A.transactions t = some (.Deposit a st) := by
    unfold Engine.getRecord at h
    cases hacct : alGet e.accounts c with
    | none => rw [hacct] at h; simp at h
    | some A => rw [hacct] at h; exact ⟨A, rfl, by simpa using h⟩
  have htmem : t ∈ e.transaction_ids_processed := hK c A hacct t _ htr
  have hensure : ∀ c2, alGet (alEnsure e.accounts c2) c = some A := by
    intro c2
    rw [alGet_alEnsure_cases]
    split
    · rename_i hc; rw [← hc] at hacct; rw [hacct]; rfl
    · exact hacct
  cases cmd with
  | Deposit c2 t2 a2 =>
    show ∃ st', (e.deposit c2 t2 a2).getRecord c t = some (.Deposit a st') ∧ st.stepOK st'
    by_cases hm : t2 ∈ e.transaction_ids_processed
    · rw [Engine.deposit_dup e c2 t2 a2 hm]
      exact ⟨st, getRecord_of (hensure c2) htr, Or.inl rfl⟩
    · by_cases hl : ((alGet e.accounts c2).getD ({} : Account)).locked
      · rw [Engine.deposit_locked e c2 t2 a2 hl]
        exact ⟨st, getRecord_of (hensure c2) htr, Or.inl rfl⟩
      · rw [Engine.deposit_success e c2 t2 a2 (by simpa using hl) hm]
        by_cases hc : c2 = c
        · subst hc
          refine ⟨st, getRecord_of (by rw [alGet_alInsert_self]) ?_, Or.inl rfl⟩
          have ht2 : t2 ≠ t := fun hteq => hm (hteq ▸ htmem)
          rw [alGet_alInsert_cases]
          rw [if_neg ht2, hacct]
          simpa using htr
        · refine ⟨st, getRecord_of ?_ htr, Or.inl rfl⟩
          rw [alGet_alInsert_cases, if_neg hc, alGet_alEnsure_cases, if_neg hc]
          exact hacct
  | Withdrawal c2 t2 a2 =>
    show ∃ st', (e.withdraw c2 t2 a2).getRecord c t = some (.Deposit a st') ∧ st.stepOK st'
    by_cases hm : t2 ∈ e.transaction_ids_processed
    · rw [Engine.withdraw_dup e c2 t2 a2 hm]
      exact ⟨st, getRecord_of (hensure c2) htr, Or.inl rfl⟩
    · by_cases hl : ((alGet e.accounts c2).getD ({} : Account)).locked
      · rw [Engine.withdraw_locked e c2 t2 a2 hl]
        exact ⟨st, getRecord_of (hensure c2) htr, Or.inl rfl⟩
      · by_cases hlt : Decimal.lt ((alGet e.accounts c2).getD ({} : Account)).available a2
        · rw [Engine.withdraw_insufficient e c2 t2 a2 (by simpa using hl) hm hlt]
          exact ⟨st, getRecord_of (hensure c2) htr, Or.inl rfl⟩
        · rw [Engine.withdraw_success e c2 t2 a2 (by simpa using hl) hm hlt]
          by_cases hc : c2 = c
          · subst hc
            refine ⟨st, getRecord_of (by rw [alGet_alInsert_self]) ?_, Or.inl rfl⟩
            have ht2 : t2 ≠ t := fun hteq => hm (hteq ▸ htmem)
            rw [alGet_alInsert_cases]
            rw [if_neg ht2, hacct]
            simpa using htr
          · refine ⟨st, getRecord_of ?_ htr, Or.inl rfl⟩
            rw [alGet_alInsert_cases, if_neg hc, alGet_alEnsure_cases, if_neg hc]
            exact hacct
  | Dispute c2 t2 =>
    show ∃ st', (e.dispute c2 t2).getRecord c t = some (.Deposit a st') ∧ st.stepOK st'
    cases hacct2 : alGet e.accounts c2 with
    | none =>
      rw [Engine.dispute_no_account e c2 t2 hacct2]
      exact ⟨st, getRecord_of hacct htr, Or.inl rfl⟩
    | some A2 =>
      by_cases hl : A2.locked
      · rw [Engine.dispute_of_locked e c2 t2 hacct2 hl]
        exact ⟨st, getRecord_of hacct htr, Or.inl rfl⟩
      · by_cases hr : ∃ a2, alGet A2.transactions t2 = some (.Deposit a2 .Normal)
        · obtain ⟨a2, hr⟩ := hr
          rw [Engine.dispute_success e c2 t2 hacct2 (by simpa using hl) hr]
          by_cases hc : c2 = c
          · subst hc
            have hA2 : A2 = A := by rw [hacct] at hacct2; exact (Option.some_inj.mp hacct2).symm
            subst hA2
            by_cases ht : t2 = t
            · subst ht
              rw [htr] at hr
              have ha2 : a2 = a ∧ st = .Normal := by
                cases hr; exact ⟨rfl, rfl⟩
              obtain ⟨rfl, rfl⟩ := ha2
              refine ⟨.Disputed, getRecord_of (by rw [alGet_alInsert_self]) ?_, ?_⟩
              · simp [alGet_alInsert_self]
              · exact Or.inr (Or.inl ⟨rfl, rfl⟩)
            · refine ⟨st, getRecord_of (by rw [alGet_alInsert_self]) ?_, Or.inl rfl⟩
              simp only [alGet_alInsert_cases, if_neg ht]
              exact htr
          · refine ⟨st, getRecord_of ?_ htr, Or.inl rfl⟩
            rw [alGet_alInsert_cases, if_neg hc]
            exact hacct
        · push_neg at hr
          rw [Engine.dispute_no_normal e c2 t2 hacct2 (by simpa using hl) hr]
          exact ⟨st, getRecord_of hacct htr, Or.inl rfl⟩
  | Resolve c2 t2 =>
    show ∃ st', (e.resolve c2 t2).getRecord c t = some (.Deposit a st') ∧ st.stepOK st'
    cases hacct2 : alGet e.accounts c2 with
    | none =>
      rw [Engine.resolve_no_account e c2 t2 hacct2]
      exact ⟨st, getRecord_of hacct htr, Or.inl rfl⟩
    | some A2 =>
      by_cases hl : A2.locked
      · rw [Engine.resolve_of_locked e c2 t2 hacct2 hl]
        exact ⟨st, getRecord_of hacct htr, Or.inl rfl⟩
      · by_cases hr : ∃ a2, alGet A2.transactions t2 = some (.Deposit a2 .Disputed)
        · obtain ⟨a2, hr⟩ := hr
          rw [Engine.resolve_success e c2 t2 hacct2 (by simpa using hl) hr]
          by_cases hc : c2 = c
          · subst hc
            have hA2 : A2 = A := by rw [hacct] at hacct2; exact (Option.some_inj.mp hacct2).symm
            subst hA2
            by_cases ht : t2 = t
            · subst ht
              rw [htr] at hr
              have ha2 : a2 = a ∧ st = .Disputed := by
                cases hr; exact ⟨rfl, rfl⟩
              obtain ⟨rfl, rfl⟩ := ha2
              refine ⟨.Resolved, getRecord_of (by rw [alGet_alInsert_self]) ?_, ?_⟩
              · simp [alGet_alInsert_self]
              · exact Or.inr (Or.inr ⟨rfl, Or.inl rfl⟩)
            · refine ⟨st, getRecord_of (by rw [alGet_alInsert_self]) ?_, Or.inl rfl⟩
              simp only [alGet_alInsert_cases, if_neg ht]
              exact htr
          · refine ⟨st, getRecord_of ?_ htr, Or.inl rfl⟩
            rw [alGet_alInsert_cases, if_neg hc]
            exact hacct
        · push_neg at hr
          rw [Engine.resolve_no_disputed e c2 t2 hacct2 (by simpa using hl) hr]
          exact ⟨st, getRecord_of hacct htr, Or.inl rfl⟩
  | Chargeback c2 t2 =>
    show ∃ st', (e.chargeback c2 t2).getRecord c t = some (.Deposit a st') ∧ st.stepOK st'
    cases hacct2 : alGet e.accounts c2 with
    | none =>
      rw [Engine.chargeback_no_account e c2 t2 hacct2]
      exact ⟨st, getRecord_of hacct htr, Or.inl rfl⟩
    | some A2 =>
      by_cases hl : A2.locked
      · rw [Engine.chargeback_of_locked e c2 t2 hacct2 hl]
        exact ⟨st, getRecord_of hacct htr, Or.inl rfl⟩
      · by_cases hr : ∃ a2, alGet A2.transactions t2 = some (.Deposit a2 .Disputed)
        · obtain ⟨a2, hr⟩ := hr
          rw [Engine.chargeback_success e c2 t2 hacct2 (by simpa using hl) hr]
          by_cases hc : c2 = c
          · subst hc
            have hA2 : A2 = A := by rw [hacct] at hacct2; exact (Option.some_inj.mp hacct2).symm
            subst hA2
            by_cases ht : t2 = t
            · subst ht
              rw [htr] at hr
              have ha2 : a2 = a ∧ st = .Disputed := by
                cases hr; exact ⟨rfl, rfl⟩
              obtain ⟨rfl, rfl⟩ := ha2
              refine ⟨.ChargedBack, getRecord_of (by rw [alGet_alInsert_self]) ?_, ?_⟩
              · simp [alGet_alInsert_self]
              · exact Or.inr (Or.inr ⟨rfl, Or.inr rfl⟩)
            · refine ⟨st, getRecord_of (by rw [alGet_alInsert_self]) ?_, Or.inl rfl⟩
              simp only [alGet_alInsert_cases, if_neg ht]
              exact htr
          · refine ⟨st, getRecord_of ?_ htr, Or.inl rfl⟩
            rw [alGet_alInsert_cases, if_neg hc]
            exact hacct
        · push_neg at hr
          rw [Engine.chargeback_no_disputed e c2 t2 hacct2 (by simpa using hl) hr]
          exact ⟨st, getRecord_of hacct htr, Or.inl rfl⟩

/-! ## Rendering lemmas -/

theorem digitChar_ne_dot (d : Nat) : digitChar d ≠ '.' := by
  unfold digitChar
  have h : d % 10 < 10 := Nat.mod_lt _ (by norm_num)
  have hk : ∀ k, k < 10 → Char.ofNat (48 + k) ≠ '.' := by decide
  exact hk (d % 10) h

theorem natDigitsCore_ne_dot : ∀ (fuel n : Nat), ∀ c ∈ natDigitsCore fuel n, c ≠ '.' := by
  intro fuel
  induction fuel with
  | zero =>
    intro n c hc
    cases n <;> simp [natDigitsCore] at hc
  | succ fuel ih =>
    intro n c hc
    cases n with
    | zero => simp [natDigitsCore] at hc
    | succ m =>
      simp only [natDigitsCore, List.mem_cons] at hc
      rcases hc with rfl | hc
      · exact digitChar_ne_dot _
      · exact ih _ c hc

theorem natDigits_ne_dot (n : Nat) : ∀ c ∈ natDigits n, c ≠ '.' := by
  intro c hc
  unfold natDigits at hc
  split at hc
  · simp at hc; subst hc; decide
  · rw [List.mem_reverse] at hc
    exact natDigitsCore_ne_dot _ _ c hc

theorem takeWhile_middle (p : Char → Bool) :
    ∀ (xs : List Char) (y : Char) (ys : List Char),
      (∀ c ∈ xs, p c = true) → p y = false →
      List.takeWhile p (xs ++ y :: ys) = xs := by
  intro xs
  induction xs with
  | nil => intro y ys _ hy; simp [List.takeWhile, hy]
  | cons x rest ih =>
    intro y ys hall hy
    rw [List.cons_append, List.takeWhile_cons, hall x (List.mem_cons_self _ _),
      ih y ys (fun c hc => hall c (List.mem_cons_of_mem _ hc)) hy]
    simp

theorem fracDigits_toString (d : Decimal) : fracDigits d.toString = d.scale := by
  have hsign : ∀ c ∈ (if d.mantissa < 0 then ['-'] else ([] : List Char)), c ≠ '.' := by
    intro c hc
    split at hc
    · simp at hc; subst hc; decide
    · simp at hc
  have hdig := natDigits_ne_dot d.mantissa.natAbs
  unfold Decimal.toString
  by_cases hs : d.scale = 0
  · rw [if_pos hs, hs]
    unfold fracDigits
    have htl : (String.mk ((if d.mantissa < 0 then ['-'] else ([] : List Char)) ++
        natDigits d.mantissa.natAbs)).toList =
        (if d.mantissa < 0 then ['-'] else ([] : List Char)) ++
          natDigits d.mantissa.natAbs := rfl
    rw [htl, if_neg]
    intro hmem
    rcases List.mem_append.mp hmem with h1 | h2
    · exact hsign _ h1 rfl
    · exact hdig _ h2 rfl
  · rw [if_neg hs]
    set sign := (if d.mantissa < 0 then ['-'] else ([] : List Char)) with hsigndef
    set digits := natDigits d.mantissa.natAbs with hdigdef
    set padded := List.replicate (d.scale + 1 - digits.length) '0' ++ digits with hpad
    have hpadchars : ∀ c ∈ padded, c ≠ '.' := by
      intro c hc
      rcases List.mem_append.mp hc with h1 | h2
      · rw [List.eq_of_mem_replicate h1]; decide
      · exact hdig _ h2
    have hplen : d.scale ≤ padded.length := by
      rw [hpad, List.length_append, List.length_replicate]
      omega
    unfold fracDigits
    have htl : (String.mk (sign ++ padded.take (padded.length - d.scale) ++
        ('.' :: padded.drop (padded.length - d.scale)))).toList =
        (sign ++ padded.take (padded.length - d.scale)) ++
          ('.' :: padded.drop (padded.length - d.scale)) := by
      show sign ++ padded.take (padded.length - d.scale) ++
          ('.' :: padded.drop (padded.length - d.scale)) = _
      rw [List.append_assoc]
    rw [htl]
    have hdot : '.' ∈ (sign ++ padded.take (padded.length - d.scale)) ++
        ('.' :: padded.drop (padded.length - d.scale)) := by
      apply List.mem_append_right
      exact List.mem_cons_self _ _
    have hchars : ∀ c ∈ (padded.drop (padded.length - d.scale)).reverse,
        (fun c => decide (c ≠ '.')) c = true := by
      intro c hc
      rw [List.mem_reverse] at hc
      have := hpadchars c (List.mem_of_mem_drop hc)
      simpa using this
    rw [if_pos hdot, List.reverse_append, List.reverse_cons, List.append_assoc,
      List.singleton_append, takeWhile_middle _ _ '.' _ hchars (by decide)]
    rw [List.length_reverse, List.length_drop, Nat.sub_sub_self hplen]

theorem stripZeros_scale_le : ∀ n s, (stripZeros n s).2 ≤ s := by
  intro n s
  induction s generalizing n with
  | zero => simp [stripZeros]
  | succ s ih =>
    unfold stripZeros
    split
    · exact (ih _).trans (Nat.le_succ s)
    · exact le_refl _

theorem normalize_scale_le (d : Decimal) : d.normalize.scale ≤ d.scale := by
  unfold Decimal.normalize
  exact stripZeros_scale_le _ _

theorem round_dp4_scale_le (d : Decimal) : (d.round_dp 4).scale ≤ 4 := by
  unfold Decimal.round_dp
  split
  · assumption
  · exact le_refl _

theorem fracDigits_format_decimal_le (d : Decimal) :
    fracDigits (format_decimal d) ≤ 4 := by
  unfold format_decimal
  rw [fracDigits_toString]
  exact (normalize_scale_le _).trans (round_dp4_scale_le d)

/-! ## State-shape and monotonicity lemmas -/

theorem Engine.accounts_shape (e : Engine) (cmd : InputTransaction) :
    (e.process_record cmd).accounts = e.accounts ∨
    (∃ c, (e.process_record cmd).accounts = alEnsure e.accounts c) ∨
    (∃ c A, (e.process_record cmd).accounts = alInsert (alEnsure e.accounts c) c A) ∨
    (∃ c A, (e.process_record cmd).accounts = alInsert e.accounts c A) := by
  cases cmd with
  | Deposit c t a =>
    simp only [Engine.process_record]
    by_cases hm : t ∈ e.transaction_ids_processed
    · rw [Engine.deposit_dup e c t a hm]; exact Or.inr (Or.inl ⟨c, rfl⟩)
    · by_cases hl : ((alGet e.accounts c).getD ({} : Account)).locked
      · rw [Engine.deposit_locked e c t a hl]; exact Or.inr (Or.inl ⟨c, rfl⟩)
      · rw [Engine.deposit_success e c t a (by simpa using hl) hm]
        exact Or.inr (Or.inr (Or.inl ⟨c, _, rfl⟩))
  | Withdrawal c t a =>
    simp only [Engine.process_record]
    by_cases hm : t ∈ e.transaction_ids_processed
    · rw [Engine.withdraw_dup e c t a hm]; exact Or.inr (Or.inl ⟨c, rfl⟩)
    · by_cases hl : ((alGet e.accounts c).getD ({} : Account)).locked
      · rw [Engine.withdraw_locked e c t a hl]; exact Or.inr (Or.inl ⟨c, rfl⟩)
      · by_cases hlt : Decimal.lt ((alGet e.accounts c).getD ({} : Account)).available a
        · rw [Engine.withdraw_insufficient e c t a (by simpa using hl) hm hlt]
          exact Or.inr (Or.inl ⟨c, rfl⟩)
        · rw [Engine.withdraw_success e c t a (by simpa using hl) hm hlt]
          exact Or.inr (Or.inr (Or.inl ⟨c, _, rfl⟩))
  | Dispute c t =>
    simp only [Engine.process_record]
    cases hacct : alGet e.accounts c with
    | none => rw [Engine.dispute_no_account e c t hacct]; exact Or.inl rfl
    | some A =>
      by_cases hl : A.locked
      · rw [Engine.dispute_of_locked e c t hacct hl]; exact Or.inl rfl
      · by_cases hr : ∃ a, alGet A.transactions t = some (.Deposit a .Normal)
        · obtain ⟨a, hr⟩ := hr
          rw [Engine.dispute_success e c t hacct (by simpa using hl) hr]
          exact Or.inr (Or.inr (Or.inr ⟨c, _, rfl⟩))
        · push_neg at hr
          rw [Engine.dispute_no_normal e c t hacct (by simpa using hl) hr]
          exact Or.inl rfl
  | Resolve c t =>
    simp only [Engine.process_record]
    cases hacct : alGet e.accounts c with
    | none => rw [Engine.resolve_no_account e c t hacct]; exact Or.inl rfl
    | some A =>
      by_cases hl : A.locked
      · rw [Engine.resolve_of_locked e c t hacct hl]; exact Or.inl rfl
      · by_cases hr : ∃ a, alGet A.transactions t = some (.Deposit a .Disputed)
        · obtain ⟨a, hr⟩ := hr
          rw [Engine.resolve_success e c t hacct (by simpa using hl) hr]
          exact Or.inr (Or.inr (Or.inr ⟨c, _, rfl⟩))
        · push_neg at hr
          rw [Engine.resolve_no_disputed e c t hacct (by simpa using hl) hr]
          exact Or.inl rfl
  | Chargeback c t =>
    simp only [Engine.process_record]
    cases hacct : alGet e.accounts c with
    | none => rw [Engine.chargeback_no_account e c t hacct]; exact Or.inl rfl
    | some A =>
      by_cases hl : A.locked
      · rw [Engine.chargeback_of_locked e c t hacct hl]; exact Or.inl rfl
      · by_cases hr : ∃ a, alGet A.transactions t = some (.Deposit a .Disputed)
        · obtain ⟨a, hr⟩ := hr
          rw [Engine.chargeback_success e c t hacct (by simpa using hl) hr]
          exact Or.inr (Or.inr (Or.inr ⟨c, _, rfl⟩))
        · push_neg at hr
          rw [Engine.chargeback_no_disputed e c t hacct (by simpa using hl) hr]
          exact Or.inl rfl

theorem Engine.processed_shape (e : Engine) (cmd : InputTransaction) :
    (e.process_record cmd).transaction_ids_processed = e.transaction_ids_processed ∨
    (∃ t, (e.process_record cmd).transaction_ids_processed =
      t :: e.transaction_ids_processed) := by
  cases cmd with
  | Deposit c t a =>
    simp only [Engine.process_record]
    by_cases hm : t ∈ e.transaction_ids_processed
    · rw [Engine.deposit_dup e c t a hm]; exact Or.inl rfl
    · by_cases hl : ((alGet e.accounts c).getD ({} : Account)).locked
      · rw [Engine.deposit_locked e c t a hl]; exact Or.inl rfl
      · rw [Engine.deposit_success e c t a (by simpa using hl) hm]
        exact Or.inr ⟨t, rfl⟩
  | Withdrawal c t a =>
    simp only [Engine.process_record]
    by_cases hm : t ∈ e.transaction_ids_processed
    · rw [Engine.withdraw_dup e c t a hm]; exact Or.inl rfl
    · by_cases hl : ((alGet e.accounts c).getD ({} : Account)).locked
      · rw [Engine.withdraw_locked e c t a hl]; exact Or.inl rfl
      · by_cases hlt : Decimal.lt ((alGet e.accounts c).getD ({} : Account)).available a
        · rw [Engine.withdraw_insufficient e c t a (by simpa using hl) hm hlt]
          exact Or.inl rfl
        · rw [Engine.withdraw_success e c t a (by simpa using hl) hm hlt]
          exact Or.inr ⟨t, rfl⟩
  | Dispute c t =>
    simp only [Engine.process_record]
    cases hacct : alGet e.accounts c with
    | none => rw [Engine.dispute_no_account e c t hacct]; exact Or.inl rfl
    | some A =>
      by_cases hl : A.locked
      · rw [Engine.dispute_of_locked e c t hacct hl]; exact Or.inl rfl
      · by_cases hr : ∃ a, alGet A.transactions t = some (.Deposit a .Normal)
        · obtain ⟨a, hr⟩ := hr
          rw [Engine.dispute_success e c t hacct (by simpa using hl) hr]
          exact Or.inl rfl
        · push_neg at hr
          rw [Engine.dispute_no_normal e c t hacct (by simpa using hl) hr]
          exact Or.inl rfl
  | Resolve c t =>
    simp only [Engine.process_record]
    cases hacct : alGet e.accounts c with
    | none => rw [Engine.resolve_no_account e c t hacct]; exact Or.inl rfl
    | some A =>
      by_cases hl : A.locked
      · rw [Engine.resolve_of_locked e c t hacct hl]; exact Or.inl rfl
      · by_cases hr : ∃ a, alGet A.transactions t = some (.Deposit a .Disputed)
        · obtain ⟨a, hr⟩ := hr
          rw [Engine.resolve_success e c t hacct (by simpa using hl) hr]
          exact Or.inl rfl
        · push_neg at hr
          rw [Engine.resolve_no_disputed e c t hacct (by simpa using hl) hr]
          exact Or.inl rfl
  | Chargeback c t =>
    simp only [Engine.process_record]
    cases hacct : alGet e.accounts c with
    | none => rw [Engine.chargeback_no_account e c t hacct]; exact Or.inl rfl
    | some A =>
      by_cases hl : A.locked
      · rw [Engine.chargeback_of_locked e c t hacct hl]; exact Or.inl rfl
      · by_cases hr : ∃ a, alGet A.transactions t = some (.Deposit a .Disputed)
        · obtain ⟨a, hr⟩ := hr
          rw [Engine.chargeback_success e c t hacct (by simpa using hl) hr]
          exact Or.inl rfl
        · push_neg at hr
          rw [Engine.chargeback_no_disputed e c t hacct (by simpa using hl) hr]
          exact Or.inl rfl

theorem processed_mono (e : Engine) (cmd : InputTransaction) {t : Nat}
    (h : t ∈ e.transaction_ids_processed) :
    t ∈ (e.process_record cmd).transaction_ids_processed := by
  rcases Engine.processed_shape e cmd with hp | ⟨t2, hp⟩
  · rw [hp]; exact h
  · rw [hp]; exact List.mem_cons_of_mem _ h

theorem account_isSome_mono (e : Engine) (cmd : InputTransaction) {c : Nat}
    (h : (alGet e.accounts c).isSome) :
    (alGet (e.process_record cmd).accounts c).isSome := by
  rcases Engine.accounts_shape e cmd with ha | ⟨c2, ha⟩ | ⟨c2, A, ha⟩ | ⟨c2, A, ha⟩
  · rw [ha]; exact h
  · rw [ha]; exact alGet_alEnsure_isSome c2 h
  · rw [ha]; exact alGet_alInsert_isSome c2 A (alGet_alEnsure_isSome c2 h)
  · rw [ha]; exact alGet_alInsert_isSome c2 A h

theorem processed_mono_runFrom (cs : List InputTransaction) :
    ∀ (e : Engine) {t : Nat}, t ∈ e.transaction_ids_processed →
      t ∈ (e.runFrom cs).transaction_ids_processed := by
  induction cs with
  | nil => exact fun e _ h => h
  | cons cmd rest ih => exact fun e _ h => ih _ (processed_mono e cmd h)

theorem account_isSome_mono_runFrom (cs : List InputTransaction) :
    ∀ (e : Engine) {c : Nat}, (alGet e.accounts c).isSome →
      (alGet (e.runFrom cs).accounts c).isSome := by
  induction cs with
  | nil => exact fun e _ h => h
  | cons cmd rest ih => exact fun e _ h => ih _ (account_isSome_mono e cmd h)

/-- A deposit on a known client with an already-processed transaction id
is a complete no-op. -/
theorem Engine.deposit_noop (e : Engine) (c t : Nat) (a : Decimal)
    (hA : (alGet e.accounts c).isSome) (hm : t ∈ e.transaction_ids_processed) :
    e.deposit c t a = e := by
  obtain ⟨A, hA⟩ := Option.isSome_iff_exists.mp hA
  rw [Engine.deposit_dup e c t a hm, alEnsure_of_some hA]

/-- A withdrawal on a known client with an already-processed transaction
id is a complete no-op. -/
theorem Engine.withdraw_noop (e : Engine) (c t : Nat) (a : Decimal)
    (hA : (alGet e.accounts c).isSome) (hm : t ∈ e.transaction_ids_processed) :
    e.withdraw c t a = e := by
  obtain ⟨A, hA⟩ := Option.isSome_iff_exists.mp hA
  rw [Engine.withdraw_dup e c t a hm, alEnsure_of_some hA]

/-- After a deposit command the client's account entry exists. -/
theorem Engine.deposit_creates (e : Engine) (c t : Nat) (a : Decimal) :
    (alGet (e.deposit c t a).accounts c).isSome := by
  by_cases hm : t ∈ e.transaction_ids_processed
  · rw [Engine.deposit_dup e c t a hm]; simp [alGet_alEnsure_self]
  · by_cases hl : ((alGet e.accounts c).getD ({} : Account)).locked
    · rw [Engine.deposit_locked e c t a hl]; simp [alGet_alEnsure_self]
    · rw [Engine.deposit_success e c t a (by simpa using hl) hm]
      simp [alGet_alInsert_self]

/-- After a withdrawal command the client's account entry exists. -/
theorem Engine.withdraw_creates (e : Engine) (c t : Nat) (a : Decimal) :
    (alGet (e.withdraw c t a).accounts c).isSome := by
  by_cases hm : t ∈ e.transaction_ids_processed
  · rw [Engine.withdraw_dup e c t a hm]; simp [alGet_alEnsure_self]
  · by_cases hl : ((alGet e.accounts c).getD ({} : Account)).locked
    · rw [Engine.withdraw_locked e c t a hl]; simp [alGet_alEnsure_self]
    · by_cases hlt : Decimal.lt ((alGet e.accounts c).getD ({} : Account)).available a
      · rw [Engine.withdraw_insufficient e c t a (by simpa using hl) hm hlt]
        simp [alGet_alEnsure_self]
      · rw [Engine.withdraw_success e c t a (by simpa using hl) hm hlt]
        simp [alGet_alInsert_self]

/-! ## Claim theorems -/

theorem getRecord_elim {e : Engine} {c t : Nat} {tr : Transaction}
    (h : e.getRecord c t = some tr) :
    ∃ A, alGet e.accounts c = some A ∧ alGet A.transactions t = some tr := by
  unfold Engine.getRecord at h
  cases hacct : alGet e.accounts c with
  | none => rw [hacct] at h; simp at h
  | some A => rw [hacct] at h; exact ⟨A, rfl, by simpa using h⟩

/-- C2: once an account is locked, any subsequent command naming that
client leaves every field of the account (available, held, locked, stored
transactions) unchanged; in particular `locked` is never reset to
`false`, since the whole account record is preserved. -/
theorem C2_locked_account_frozen (e : Engine) (cmd : InputTransaction) (c : Nat)
    (acct : Account) (hacct : alGet e.accounts c = some acct)
    (hlocked : acct.locked = true) (hname : cmd.client_of = c) :
    alGet (e.process_record cmd).accounts c = some acct := by
  cases cmd with
  | Deposit c2 t2 a2 =>
    have hc : c2 = c := hname
    subst hc
    show alGet (e.deposit c2 t2 a2).accounts c2 = some acct
    rw [Engine.deposit_locked e c2 t2 a2 (by simp [hacct, hlocked])]
    simp [alGet_alEnsure_self, hacct]
  | Withdrawal c2 t2 a2 =>
    have hc : c2 = c := hname
    subst hc
    show alGet (e.withdraw c2 t2 a2).accounts c2 = some acct
    rw [Engine.withdraw_locked e c2 t2 a2 (by simp [hacct, hlocked])]
    simp [alGet_alEnsure_self, hacct]
  | Dispute c2 t2 =>
    have hc : c2 = c := hname
    subst hc
    show alGet (e.dispute c2 t2).accounts c2 = some acct
    rw [Engine.dispute_of_locked e c2 t2 hacct hlocked]
    exact hacct
  | Resolve c2 t2 =>
    have hc : c2 = c := hname
    subst hc
    show alGet (e.resolve c2 t2).accounts c2 = some acct
    rw [Engine.resolve_of_locked e c2 t2 hacct hlocked]
    exact hacct
  | Chargeback c2 t2 =>
    have hc : c2 = c := hname
    subst hc
    show alGet (e.chargeback c2 t2).accounts c2 = some acct
    rw [Engine.chargeback_of_locked e c2 t2 hacct hlocked]
    exact hacct

/-- Witness for C2: a chargeback locks client 1's account; a later
deposit naming client 1 leaves the account record unchanged. -/
theorem C2_witness :
    alGet (runCmds [.Deposit 1 1 ⟨35, 1⟩, .Dispute 1 1, .Chargeback 1 1]).accounts 1 =
      some { available := ⟨0, 1⟩, held := ⟨0, 1⟩, locked := true,
             transactions := [(1, .Deposit ⟨35, 1⟩ .ChargedBack)] } ∧
    alGet ((runCmds [.Deposit 1 1 ⟨35, 1⟩, .Dispute 1 1, .Chargeback 1 1]).process_record
        (.Deposit 1 2 ⟨10, 1⟩)).accounts 1 =
      some { available := ⟨0, 1⟩, held := ⟨0, 1⟩, locked := true,
             transactions := [(1, .Deposit ⟨35, 1⟩ .ChargedBack)] } :=
  ⟨by decide,
   C2_locked_account_frozen (runCmds [.Deposit 1 1 ⟨35, 1⟩, .Dispute 1 1, .Chargeback 1 1])
     (.Deposit 1 2 ⟨10, 1⟩) 1
     { available := ⟨0, 1⟩, held := ⟨0, 1⟩, locked := true,
       transactions := [(1, .Deposit ⟨35, 1⟩ .ChargedBack)] }
     (by decide) (by decide) rfl⟩

/-- C3: a stored deposit record's dispute state moves only along
`Normal → Disputed → Resolved / ChargedBack`: a Dispute on a record whose
state is not `Normal`, and a Resolve or Chargeback on a record whose
state is not `Disputed`, leave the engine state unchanged; and on any
reachable state one step of any command either keeps a record's state or
moves it forward, so the state never returns to `Normal` and a record is
disputed at most once. -/
theorem C3_dispute_state_machine :
    (∀ (e : Engine) (c t : Nat) (a : Decimal) (st : TransactionState),
      e.getRecord c t = some (.Deposit a st) → st ≠ .Normal →
        e.dispute c t = e) ∧
    (∀ (e : Engine) (c t : Nat) (a : Decimal) (st : TransactionState),
      e.getRecord c t = some (.Deposit a st) → st ≠ .Disputed →
        e.resolve c t = e) ∧
    (∀ (e : Engine) (c t : Nat) (a : Decimal) (st : TransactionState),
      e.getRecord c t = some (.Deposit a st) → st ≠ .Disputed →
        e.chargeback c t = e) ∧
    (∀ (cs : List InputTransaction) (cmd : InputTransaction) (c t : Nat)
      (a : Decimal) (st : TransactionState),
      (runCmds cs).getRecord c t = some (.Deposit a st) →
      ∃ st', ((runCmds cs).process_record cmd).getRecord c t =
        some (.Deposit a st') ∧ st.stepOK st') := by
  refine ⟨?_, ?_, ?_, ?_⟩
  · intro e c t a st h hst
    obtain ⟨A, hacct, htr⟩ := getRecord_elim h
    by_cases hl : A.locked
    · exact Engine.dispute_of_locked e c t hacct hl
    · refine Engine.dispute_no_normal e c t hacct (by simpa using hl) ?_
      intro a2 heq
      rw [htr] at heq
      injection heq with h2
      injection h2 with h3 h4
      exact hst h4
  · intro e c t a st h hst
    obtain ⟨A, hacct, htr⟩ := getRecord_elim h
    by_cases hl : A.locked
    · exact Engine.resolve_of_locked e c t hacct hl
    · refine Engine.resolve_no_disputed e c t hacct (by simpa using hl) ?_
      intro a2 heq
      rw [htr] at heq
      injection heq with h2
      injection h2 with h3 h4
      exact hst h4
  · intro e c t a st h hst
    obtain ⟨A, hacct, htr⟩ := getRecord_elim h
    by_cases hl : A.locked
    · exact Engine.chargeback_of_locked e c t hacct hl
    · refine Engine.chargeback_no_disputed e c t hacct (by simpa using hl) ?_
      intro a2 heq
      rw [htr] at heq
      injection heq with h2
      injection h2 with h3 h4
      exact hst h4
  · intro cs cmd c t a st h
    exact record_step (runCmds cs) cmd (keysProcessed_runCmds cs) c t a st h

/-- Witness for C3: disputing an already-disputed record is a no-op. -/
theorem C3_witness :
    (runCmds [.Deposit 1 1 ⟨20, 1⟩, .Dispute 1 1]).getRecord 1 1 =
      some (.Deposit ⟨20, 1⟩ .Disputed) ∧
    (runCmds [.Deposit 1 1 ⟨20, 1⟩, .Dispute 1 1]).dispute 1 1 =
      runCmds [.Deposit 1 1 ⟨20, 1⟩, .Dispute 1 1] :=
  ⟨by decide,
   C3_dispute_state_machine.1 (runCmds [.Deposit 1 1 ⟨20, 1⟩, .Dispute 1 1]) 1 1
     ⟨20, 1⟩ .Disputed (by decide) (by decide)⟩

/-- Counterexample to C4 as stated: a deposit of the negative amount `-1`
is not a no-op — it changes the ledger state, crediting `-1` and storing
a record. -/
theorem C4_counterexample :
    (Decimal.mk (-1) 0).mantissa ≤ 0 ∧
    runCmds [.Deposit 1 1 ⟨-1, 0⟩] ≠ Engine.new ∧
    alGet (runCmds [.Deposit 1 1 ⟨-1, 0⟩]).accounts 1 =
      some { available := ⟨-1, 0⟩, held := Decimal.zero, locked := false,
             transactions := [(1, .Deposit ⟨-1, 0⟩ .Normal)] } :=
  ⟨by decide, by decide, by decide⟩

/-- C4 as amended: `Engine::deposit` performs no positivity check on the
amount: on an unlocked (or absent) account with a fresh transaction id, a
deposit with `amount <= 0` is applied exactly like any other deposit
(`available += amount`, record stored), not silently dropped. -/
theorem C4_deposit_applies_nonpositive (e : Engine) (c t : Nat) (a : Decimal)
    (hl : ((alGet e.accounts c).getD ({} : Account)).locked = false)
    (hm : t ∉ e.transaction_ids_processed) (hneg : a.mantissa ≤ 0) :
    e.deposit c t a =
      { accounts := alInsert (alEnsure e.accounts c) c
          { (alGet e.accounts c).getD ({} : Account) with
            available := ((alGet e.accounts c).getD ({} : Account)).available.add a,
            transactions := alInsert ((alGet e.accounts c).getD ({} : Account)).transactions
              t (.Deposit a .Normal) },
        transaction_ids_processed := t :: e.transaction_ids_processed } :=
  Engine.deposit_success e c t a hl hm

/-- Witness for C4 as amended: deposit of `-1` into the empty engine. -/
theorem C4_witness :
    ((alGet Engine.new.accounts 1).getD ({} : Account)).locked = false ∧
    (1 : Nat) ∉ Engine.new.transaction_ids_processed ∧
    (Decimal.mk (-1) 0).mantissa ≤ 0 ∧
    Engine.new.deposit 1 1 ⟨-1, 0⟩ =
      { accounts := alInsert (alEnsure Engine.new.accounts 1) 1
          { (alGet Engine.new.accounts 1).getD ({} : Account) with
            available := ((alGet Engine.new.accounts 1).getD ({} : Account)).available.add
              ⟨-1, 0⟩,
            transactions := alInsert
              ((alGet Engine.new.accounts 1).getD ({} : Account)).transactions
              1 (.Deposit ⟨-1, 0⟩ .Normal) },
        transaction_ids_processed := 1 :: Engine.new.transaction_ids_processed } :=
  ⟨by decide, by decide, by decide,
   C4_deposit_applies_nonpositive Engine.new 1 1 ⟨-1, 0⟩ (by decide) (by decide) (by decide)⟩

/-- Counterexample to C1 as stated: both commands pass normalization, yet
disputing a (negative-amount) deposit drives `held` to `-5 < 0` in a
reachable state. -/
theorem C1_counterexample :
    InputTransaction.try_from ⟨"deposit", 1, 1, some ⟨-5, 0⟩⟩ =
      Except.ok (.Deposit 1 1 ⟨-5, 0⟩) ∧
    InputTransaction.try_from ⟨"dispute", 1, 1, none⟩ =
      Except.ok (.Dispute 1 1) ∧
    (alGet (runCmds [.Deposit 1 1 ⟨-5, 0⟩, .Dispute 1 1]).accounts 1).map Account.held =
      some ⟨-5, 0⟩ ∧
    (Decimal.mk (-5) 0).val < 0 :=
  ⟨by decide, by decide, by decide, by norm_num [Decimal.val]⟩

/-- C1 as amended: in every state reachable by commands whose deposit
amounts are all nonnegative, every account satisfies `total = available +
held` (as reported values) and `held >= 0`. (Without the nonnegativity
restriction the `held >= 0` half fails, see the counterexample; the
`total` half holds unconditionally since `total` is computed as
`available + held`.) -/
theorem C1_total_and_held_nonneg (cs : List InputTransaction)
    (hpos : DepositsNonneg cs) (c : Nat) (acct : Account)
    (h : alGet (runCmds cs).accounts c = some acct) :
    acct.total.val = acct.available.val + acct.held.val ∧ 0 ≤ acct.held.val := by
  refine ⟨Decimal.val_add _ _, ?_⟩
  rw [heldSum_runCmds cs c acct h]
  have hA := amountsNonneg_runCmds cs hpos
  unfold disputedSum
  apply List.sum_nonneg
  intro x hx
  obtain ⟨p, hp, rfl⟩ := List.mem_map.mp hx
  obtain ⟨t2, tr⟩ := p
  cases tr with
  | Withdrawal a2 => simp [contrib]
  | Deposit a2 st2 =>
    cases st2 with
    | Disputed =>
      have hm := hA c acct t2 a2 .Disputed h hp
      show 0 ≤ contrib (.Deposit a2 .Disputed)
      simp only [contrib]
      exact (Decimal.val_nonneg a2).mpr hm
    | Normal => simp [contrib]
    | Resolved => simp [contrib]
    | ChargedBack => simp [contrib]

/-- Witness for C1 as amended: deposit 2.0 then dispute it; client 1's
account satisfies both invariant halves. -/
theorem C1_witness :
    DepositsNonneg [.Deposit 1 1 ⟨20, 1⟩, .Dispute 1 1] ∧
    alGet (runCmds [.Deposit 1 1 ⟨20, 1⟩, .Dispute 1 1]).accounts 1 =
      some { available := ⟨0, 1⟩, held := ⟨20, 1⟩, locked := false,
             transactions := [(1, .Deposit ⟨20, 1⟩ .Disputed)] } ∧
    (({ available := ⟨0, 1⟩, held := ⟨20, 1⟩, locked := false,
        transactions := [(1, .Deposit ⟨20, 1⟩ .Disputed)] } : Account).total.val =
      ({ available := ⟨0, 1⟩, held := ⟨20, 1⟩, locked := false,
         transactions := [(1, .Deposit ⟨20, 1⟩ .Disputed)] } : Account).available.val +
        ({ available := ⟨0, 1⟩, held := ⟨20, 1⟩, locked := false,
           transactions := [(1, .Deposit ⟨20, 1⟩ .Disputed)] } : Account).held.val ∧
      0 ≤ ({ available := ⟨0, 1⟩, held := ⟨20, 1⟩, locked := false,
             transactions := [(1, .Deposit ⟨20, 1⟩ .Disputed)] } : Account).held.val) := by
  have hpos : DepositsNonneg [.Deposit 1 1 ⟨20, 1⟩, .Dispute 1 1] := by
    intro c t a hmem
    simp only [List.mem_cons, List.not_mem_nil, or_false] at hmem
    rcases hmem with heq | heq
    · injection heq with h1 h2 h3
      rw [h3]
      decide
    · simp at heq
  exact ⟨hpos, by decide, C1_total_and_held_nonneg _ hpos 1 _ (by decide)⟩

theorem write_accounts_clients (e : Engine) :
    e.write_accounts.map AccountRow.client = e.accounts.map Prod.fst := by
  unfold Engine.write_accounts
  rw [List.map_map]
  rfl

theorem Account.default_available_lt (a : Decimal) :
    Decimal.lt ({} : Account).available a ↔ 0 < a.mantissa := by
  show Decimal.lt ⟨0, 0⟩ a ↔ _
  simp [Decimal.lt, Nat.zero_max]

/-- Counterexample to C5 as stated: a withdrawal naming the never-seen
client 1 creates a zero-balance account that then appears as a row in the
snapshot output. -/
theorem C5_counterexample :
    alGet (runCmds [.Withdrawal 1 1 ⟨10, 1⟩]).accounts 1 = some ({} : Account) ∧
    (runCmds [.Withdrawal 1 1 ⟨10, 1⟩]).write_accounts =
      [{ client := 1, available := "0", held := "0", total := "0", locked := false }] :=
  ⟨by decide, by decide⟩

/-- C5 as amended: a failed Withdrawal naming an unseen client still
materializes a zero-balance account (the `entry().or_default()` side
effect), and that client then appears in the snapshot; Dispute, Resolve
and Chargeback naming an unseen client are complete no-ops and create
nothing; the snapshot lists exactly the clients present in the accounts
map. -/
theorem C5_unseen_client (e : Engine) (c t : Nat) (a : Decimal)
    (habs : alGet e.accounts c = none) :
    (0 < a.mantissa →
      e.withdraw c t a = { e with accounts := e.accounts ++ [(c, ({} : Account))] } ∧
      alGet (e.withdraw c t a).accounts c = some ({} : Account) ∧
      c ∈ (e.withdraw c t a).write_accounts.map AccountRow.client) ∧
    e.dispute c t = e ∧ e.resolve c t = e ∧ e.chargeback c t = e ∧
    e.write_accounts.map AccountRow.client = e.accounts.map Prod.fst := by
  have hgd : (alGet e.accounts c).getD ({} : Account) = ({} : Account) := by
    rw [habs]; rfl
  refine ⟨?_, Engine.dispute_no_account e c t habs, Engine.resolve_no_account e c t habs,
    Engine.chargeback_no_account e c t habs, write_accounts_clients e⟩
  intro hpos
  have hwd : e.withdraw c t a = { e with accounts := alEnsure e.accounts c } := by
    by_cases hm : t ∈ e.transaction_ids_processed
    · exact Engine.withdraw_dup e c t a hm
    · refine Engine.withdraw_insufficient e c t a (by rw [hgd]) hm ?_
      rw [hgd]
      exact (Account.default_available_lt a).mpr hpos
  rw [alEnsure_of_none habs] at hwd
  refine ⟨hwd, ?_, ?_⟩
  · rw [hwd]
    show alGet (e.accounts ++ [(c, ({} : Account))]) c = some ({} : Account)
    rw [alGet_append_right _ habs]
    simp [alGet]
  · rw [hwd, write_accounts_clients]
    show c ∈ (e.accounts ++ [(c, ({} : Account))]).map Prod.fst
    simp

/-- Witness for C5 as amended: in the empty engine, a withdrawal naming
client 1 creates the zero-balance account; a dispute creates nothing. -/
theorem C5_witness :
    alGet Engine.new.accounts 1 = none ∧ 0 < (Decimal.mk 10 1).mantissa ∧
    Engine.new.withdraw 1 1 ⟨10, 1⟩ =
      { Engine.new with accounts := Engine.new.accounts ++ [(1, ({} : Account))] } ∧
    Engine.new.dispute 1 1 = Engine.new :=
  ⟨by decide, by decide,
   ((C5_unseen_client Engine.new 1 1 ⟨10, 1⟩ (by decide)).1 (by decide)).1,
   (C5_unseen_client Engine.new 1 1 ⟨10, 1⟩ (by decide)).2.1⟩

/-- C6: on an unlocked account with a fresh transaction id, a withdrawal
succeeds (`available -= amount`, record stored) exactly when `available
>= amount`; when `available < amount` the engine state is unchanged. The
comparison is `Decimal.lt available amount` — it mentions `available`
alone, never `held`, and coincides with the value order. -/
theorem C6_withdraw_iff_available (e : Engine) (c t : Nat) (a : Decimal)
    (acct : Account) (hacct : alGet e.accounts c = some acct)
    (hl : acct.locked = false) (hm : t ∉ e.transaction_ids_processed) :
    (Decimal.lt acct.available a ↔ acct.available.val < a.val) ∧
    (Decimal.lt acct.available a → e.withdraw c t a = e) ∧
    (¬ Decimal.lt acct.available a →
      e.withdraw c t a =
        { accounts := alInsert e.accounts c
            { acct with available := acct.available.sub a,
                        transactions := alInsert acct.transactions t (.Withdrawal a) },
          transaction_ids_processed := t :: e.transaction_ids_processed }) := by
  have hgd : (alGet e.accounts c).getD ({} : Account) = acct := by
    rw [hacct]; rfl
  refine ⟨Decimal.lt_iff _ _, ?_, ?_⟩
  · intro hlt
    rw [Engine.withdraw_insufficient e c t a (by rw [hgd]; exact hl) hm
      (by rw [hgd]; exact hlt), alEnsure_of_some hacct]
  · intro hge
    rw [Engine.withdraw_success e c t a (by rw [hgd]; exact hl) hm
      (by rw [hgd]; exact hge), alEnsure_of_some hacct, hgd]

/-- Witness for C6: after deposit 2.0 and its dispute, available is 0.0
and held 2.0; a withdrawal of 1.5 fails although available + held = 2.0
>= 1.5, because only `available` is checked. -/
theorem C6_witness :
    alGet (runCmds [.Deposit 1 1 ⟨20, 1⟩, .Dispute 1 1]).accounts 1 =
      some { available := ⟨0, 1⟩, held := ⟨20, 1⟩, locked := false,
             transactions := [(1, .Deposit ⟨20, 1⟩ .Disputed)] } ∧
    Decimal.lt (Decimal.mk 0 1) ⟨15, 1⟩ ∧
    (runCmds [.Deposit 1 1 ⟨20, 1⟩, .Dispute 1 1]).withdraw 1 2 ⟨15, 1⟩ =
      runCmds [.Deposit 1 1 ⟨20, 1⟩, .Dispute 1 1] :=
  ⟨by decide, by decide,
   (C6_withdraw_iff_available (runCmds [.Deposit 1 1 ⟨20, 1⟩, .Dispute 1 1]) 1 2 ⟨15, 1⟩
     { available := ⟨0, 1⟩, held := ⟨20, 1⟩, locked := false,
       transactions := [(1, .Deposit ⟨20, 1⟩ .Disputed)] }
     (by decide) (by decide) (by decide)).2.1 (by decide)⟩

/-- C7: a Deposit or Withdrawal carrying a transaction id that entered
the processed set through an earlier Deposit/Withdrawal of the same
client (at any later point, after any further commands) is a complete
no-op on the engine state — in particular no balance changes. -/
theorem C7_duplicate_replay_noop (e : Engine) (c t : Nat) (a a2 : Decimal)
    (cmd cmd2 : InputTransaction)
    (hcmd : cmd = .Deposit c t a ∨ cmd = .Withdrawal c t a)
    (hcmd2 : cmd2 = .Deposit c t a2 ∨ cmd2 = .Withdrawal c t a2)
    (hused : t ∈ (e.process_record cmd).transaction_ids_processed)
    (cs : List InputTransaction) :
    ((e.process_record cmd).runFrom cs).process_record cmd2 =
      (e.process_record cmd).runFrom cs := by
  have hsome : (alGet (e.process_record cmd).accounts c).isSome := by
    rcases hcmd with rfl | rfl
    · exact Engine.deposit_creates e c t a
    · exact Engine.withdraw_creates e c t a
  have hsome2 := account_isSome_mono_runFrom cs _ hsome
  have hmem2 := processed_mono_runFrom cs _ hused
  rcases hcmd2 with rfl | rfl
  · exact Engine.deposit_noop _ c t a2 hsome2 hmem2
  · exact Engine.withdraw_noop _ c t a2 hsome2 hmem2

/-- Witness for C7: after a successful deposit under tx 1, replaying tx 1
with a different amount changes nothing. -/
theorem C7_witness :
    (1 : Nat) ∈ (Engine.new.process_record
      (.Deposit 1 1 ⟨5, 0⟩)).transaction_ids_processed ∧
    ((Engine.new.process_record (.Deposit 1 1 ⟨5, 0⟩)).runFrom []).process_record
        (.Deposit 1 1 ⟨7, 0⟩) =
      (Engine.new.process_record (.Deposit 1 1 ⟨5, 0⟩)).runFrom [] :=
  ⟨by decide,
   C7_duplicate_replay_noop Engine.new 1 1 ⟨5, 0⟩ ⟨7, 0⟩ _ _ (Or.inl rfl) (Or.inl rfl)
     (by decide) []⟩

/-- Counterexample to C8 as stated: a balance of 0.5 is rendered as
"0.5" (one fractional digit), not "0.5000". -/
theorem C8_counterexample :
    (runCmds [.Deposit 1 1 ⟨5, 1⟩]).write_accounts =
      [{ client := 1, available := "0.5", held := "0", total := "0.5",
         locked := false }] ∧
    fracDigits "0.5" = 1 ∧ "0.5" ≠ "0.5000" :=
  ⟨by decide, by decide, by decide⟩

/-- C8 as amended: every decimal field of every snapshot row is rendered
with AT MOST 4 fractional digits — the value is rounded to 4 decimal
places and trailing zeros are then stripped (`round_dp(4).normalize()`),
so fewer than 4 digits (or none) may appear. -/
theorem C8_at_most_four_frac_digits (e : Engine) (row : AccountRow)
    (h : row ∈ e.write_accounts) :
    fracDigits row.available ≤ 4 ∧ fracDigits row.held ≤ 4 ∧
      fracDigits row.total ≤ 4 := by
  unfold Engine.write_accounts at h
  obtain ⟨p, hp, rfl⟩ := List.mem_map.mp h
  exact ⟨fracDigits_format_decimal_le _, fracDigits_format_decimal_le _,
    fracDigits_format_decimal_le _⟩

/-- Witness for C8 as amended: the row produced for client 1. -/
theorem C8_witness :
    ({ client := 1, available := "0.5", held := "0", total := "0.5", locked := false } : AccountRow) ∈ (runCmds [.Deposit 1 1 ⟨5, 1⟩]).write_accounts ∧
    (fracDigits ({ client := 1, available := "0.5", held := "0", total := "0.5", locked := false } : AccountRow).available ≤ 4 ∧
      fracDigits ({ client := 1, available := "0.5", held := "0", total := "0.5", locked := false } : AccountRow).held ≤ 4 ∧
      fracDigits ({ client := 1, available := "0.5", held := "0", total := "0.5", locked := false } : AccountRow).total ≤ 4) :=
  ⟨by decide, C8_at_most_four_frac_digits (runCmds [.Deposit 1 1 ⟨5, 1⟩]) _ (by decide)⟩

/-- Counterexample to C9 as stated: the type field is matched
case-sensitively, so the row type "Deposit" — accepted under
case-insensitive comparison per the claim — is rejected. -/
theorem C9_counterexample :
    InputTransaction.try_from ⟨"Deposit", 1, 1, some ⟨1, 0⟩⟩ =
      Except.error "Unknown transaction type" := by decide

/-- C9 as amended: normalization matches the type field case-sensitively
against the five exact lowercase names; each lowercase name yields the
corresponding command (dispute/resolve/chargeback ignoring any amount),
a deposit or withdrawal row without an amount is rejected, and any other
type string — including differently-cased spellings such as "Deposit" —
is rejected as unknown. -/
theorem C9_case_sensitive_normalization (c t : Nat) (amt : Decimal) (s : String)
    (hs : s ∉ (["deposit", "withdrawal", "dispute", "resolve", "chargeback"] :
      List String)) :
    InputTransaction.try_from ⟨"deposit", c, t, some amt⟩ =
      Except.ok (.Deposit c t amt) ∧
    InputTransaction.try_from ⟨"withdrawal", c, t, some amt⟩ =
      Except.ok (.Withdrawal c t amt) ∧
    (∀ o : Option Decimal, InputTransaction.try_from ⟨"dispute", c, t, o⟩ =
      Except.ok (.Dispute c t)) ∧
    (∀ o : Option Decimal, InputTransaction.try_from ⟨"resolve", c, t, o⟩ =
      Except.ok (.Resolve c t)) ∧
    (∀ o : Option Decimal, InputTransaction.try_from ⟨"chargeback", c, t, o⟩ =
      Except.ok (.Chargeback c t)) ∧
    InputTransaction.try_from ⟨"deposit", c, t, none⟩ =
      Except.error "Deposit/Withdrawal missing amount" ∧
    InputTransaction.try_from ⟨"withdrawal", c, t, none⟩ =
      Except.error "Deposit/Withdrawal missing amount" ∧
    (∀ o : Option Decimal, InputTransaction.try_from ⟨s, c, t, o⟩ =
      Except.error "Unknown transaction type") := by
  have h1 : ¬ s = "deposit" := fun h => hs (by rw [h]; simp)
  have h2 : ¬ s = "withdrawal" := fun h => hs (by rw [h]; simp)
  have h3 : ¬ s = "dispute" := fun h => hs (by rw [h]; simp)
  have h4 : ¬ s = "resolve" := fun h => hs (by rw [h]; simp)
  have h5 : ¬ s = "chargeback" := fun h => hs (by rw [h]; simp)
  refine ⟨rfl, rfl, fun o => rfl, fun o => rfl, fun o => rfl, rfl, rfl, ?_⟩
  intro o
  simp [InputTransaction.try_from, h1, h2, h3, h4, h5]

/-- Witness for C9 as amended, at the unknown type string "Chargeback"
(wrong case). -/
theorem C9_witness :
    ("Chargeback" : String) ∉
      (["deposit", "withdrawal", "dispute", "resolve", "chargeback"] : List String) ∧
    InputTransaction.try_from ⟨"deposit", 7, 9, some ⟨25, 1⟩⟩ =
      Except.ok (.Deposit 7 9 ⟨25, 1⟩) ∧
    InputTransaction.try_from ⟨"Chargeback", 7, 9, none⟩ =
      Except.error "Unknown transaction type" :=
  ⟨by decide,
   (C9_case_sensitive_normalization 7 9 ⟨25, 1⟩ "Chargeback" (by decide)).1,
   (C9_case_sensitive_normalization 7 9 ⟨25, 1⟩ "Chargeback" (by decide)).2.2.2.2.2.2.2 none⟩

/-- Counterexample to C10 as stated: a deposit by the unseen client 2
reusing client 1's transaction id is blocked by the global duplicate
check, yet it is not state-neutral — it creates an empty account for
client 2. -/
theorem C10_counterexample :
    (runCmds [.Deposit 1 1 ⟨5, 0⟩]).process_record (.Deposit 2 1 ⟨5, 0⟩) ≠
      runCmds [.Deposit 1 1 ⟨5, 0⟩] ∧
    alGet ((runCmds [.Deposit 1 1 ⟨5, 0⟩]).process_record
      (.Deposit 2 1 ⟨5, 0⟩)).accounts 2 = some ({} : Account) :=
  ⟨by decide, by decide⟩

/-- C10 as amended: duplicate-id detection is global across clients — a
Deposit or Withdrawal whose transaction id is already in the processed
set (no matter which client put it there) changes no existing account
and stores no record; its only effect is to materialize an empty account
for the named client if none existed. -/
theorem C10_global_duplicate_detection (e : Engine) (c t : Nat) (a : Decimal)
    (h : t ∈ e.transaction_ids_processed) :
    e.deposit c t a = { e with accounts := alEnsure e.accounts c } ∧
    e.withdraw c t a = { e with accounts := alEnsure e.accounts c } ∧
    ∀ c2 acct, alGet e.accounts c2 = some acct →
      alGet (e.deposit c t a).accounts c2 = some acct ∧
      alGet (e.withdraw c t a).accounts c2 = some acct := by
  refine ⟨Engine.deposit_dup e c t a h, Engine.withdraw_dup e c t a h, ?_⟩
  intro c2 acct hacct
  rw [Engine.deposit_dup e c t a h, Engine.withdraw_dup e c t a h]
  constructor <;>
  · show alGet (alEnsure e.accounts c) c2 = some acct
    rw [alGet_alEnsure_cases]
    split
    · rename_i hc
      rw [← hc] at hacct
      rw [hacct]
      rfl
    · exact hacct

/-- Witness for C10 as amended: client 2 replays client 1's tx id. -/
theorem C10_witness :
    (1 : Nat) ∈ (runCmds [.Deposit 1 1 ⟨5, 0⟩]).transaction_ids_processed ∧
    (runCmds [.Deposit 1 1 ⟨5, 0⟩]).deposit 2 1 ⟨5, 0⟩ =
      { runCmds [.Deposit 1 1 ⟨5, 0⟩] with
        accounts := alEnsure (runCmds [.Deposit 1 1 ⟨5, 0⟩]).accounts 2 } :=
  ⟨by decide,
   (C10_global_duplicate_detection (runCmds [.Deposit 1 1 ⟨5, 0⟩]) 2 1 ⟨5, 0⟩
     (by decide)).1⟩
